import Mathlib

/-!
# Expedition_MBED: host-side bridge between a JTAG target and console / UDP

Shallow embedding of `basic_io.cpp`, `main.cpp` and `signal.h`.

* A `char` is a `Byte` (`Fin 256`); a target word is a `Nat` (below `2 ^ 32` on
  the target, and only its low four bytes are ever looked at), and the
  `byte_chunk_union` view is little-endian (Cortex-M host).
* Target memory is a map from word address to word; `readMemory` and
  `writeMemory` of the absent `jtag.h` are the plain accesses to that map.
* The constants of the absent `mmap.h` / `basic_io.h` (`WRITEBUF_BEGIN`,
  `WRITEBUF_END`, `READBUF_BEGIN`, `READBUF_END`, `IO_TYPE`, `ACK_TYPE`,
  `BUF_SIZE`) are parameters. Window addresses are target addresses, for which the
  loop counters `i += 4` do not wrap.
* A `const char *buffer` is the list of bytes stored from the pointer on; a read
  past the end of the list yields `0` (the string terminator). A `char *buffer`
  that is written is the list of bytes stored from the pointer on, in order.
* A `for` or `while` loop is a recursive function whose first argument bounds the
  number of iterations; every caller passes a bound the loop cannot reach.
* Every task records what it does in an event trace. The console and the socket
  are outside: the characters typed and the results of `sendTo` / `receiveFrom`
  are inputs, and polling a port that is not ready changes nothing.
-/

namespace Expedition

/-! ## signal.h -/

def TERM_PRINT_REQ : Nat := 0
def TERM_SCAN_REQ : Nat := 1
def INET_PRINT_REQ : Nat := 2
def INET_SCAN_REQ : Nat := 3
def PANIC_REQ : Nat := 15

def PRINT_ACK : Nat := 0
def SCAN_ACK : Nat := 1

def SIG_DISPATCH : Nat := 0x1
def SIG_TERM_WRITE : Nat := 0x2
def SIG_TERM_READ : Nat := 0x4
def SIG_INET_WRITE : Nat := 0x8
def SIG_INET_READ : Nat := 0x10
def SIG_DEBUG : Nat := 0x20

/-! ## Data model -/

/-- A C `char`. -/
abbrev Byte := Fin 256

/-- The three mutexes of `locks.h`. -/
inductive Mutex where
  | term_write_mutex
  | term_read_mutex
  | JTAG_mutex
  deriving DecidableEq, Repr

/-- The threads created in `main`. -/
inductive ThreadId where
  | dispatch_thread
  | term_write_thread
  | term_read_thread
  | inet_write_thread
  | inet_read_thread
  | debug_thread
  deriving DecidableEq, Repr

/-- The formatted messages the tasks print (format string and argument). -/
inductive Message where
  | unsupported_request (type : Nat)
  | hex_word (value : Nat)
  | blank_line
  | inet_printf_failed
  | inet_scanf_failed
  deriving DecidableEq, Repr

/-- What a task does, in program order. -/
inductive Event where
  | signal_wait (sig : Nat)
  | signal_set (thread : ThreadId) (sig : Nat)
  | lock (m : Mutex)
  | unlock (m : Mutex)
  | readMemory (addr : Nat)
  | writeMemory (addr : Nat) (value : Nat)
  | ack_intr (level : Nat)
  | putc (c : Byte)
  | getc (c : Byte)
  | printf (msg : Message)
  | sendTo (data : List Byte) (size : Nat)
  | receiveFrom (capacity : Nat)
  | store_rx (index : Nat)
  | jtag_reset
  | jtag_leaveState
  | jtag_PowerupDAP
  | panic (msg : Message)
  deriving DecidableEq, Repr

/-- The state the tasks share: target memory behind the JTAG object, the
trace of the running task, the statics `ethernet_open` (basic_io.cpp) and
`init` (of `debug_loop`), and the characters the serial port `pc` will deliver. -/
structure Machine where
  mem : Nat → Nat
  trace : List Event
  ethernet_open : Bool
  init : Bool
  pc : List Byte

def Machine.emit (J : Machine) (es : List Event) : Machine :=
  { J with trace := J.trace ++ es }

/-- The call `pJtag->readMemory(addr)`. -/
def Machine.readMemory (J : Machine) (addr : Nat) : Nat × Machine :=
  (J.mem addr, J.emit [Event.readMemory addr])

/-- The call `pJtag->writeMemory(addr, value)`. -/
def Machine.writeMemory (J : Machine) (addr value : Nat) : Machine :=
  { J with
    mem := fun a => if a = addr then value else J.mem a
    trace := J.trace ++ [Event.writeMemory addr value] }

/-- Byte `j` of `chunk.bytes` when `chunk.word = w`. -/
def chunk_byte (w : Nat) (j : Nat) : Byte :=
  ⟨(w / 256 ^ j) % 256, Nat.mod_lt _ (by decide)⟩

/-- The array `chunk.bytes` when `chunk.word = w`. -/
def chunk_bytes (w : Nat) : List Byte :=
  [chunk_byte w 0, chunk_byte w 1, chunk_byte w 2, chunk_byte w 3]

/-- The value `chunk.word` when `chunk.bytes` holds the given bytes. -/
def chunk_word : List Byte → Nat
  | [] => 0
  | b :: bs => b.val + 256 * chunk_word bs

/-! ## basic_io.cpp: the shared-buffer codec -/

/-- The inner `for (j ...)` of `jtag_writebuffer` over the bytes of one chunk:
copies up to the first null byte, which sets `finished` and breaks. -/
def jtag_writebuffer_chunk : List Byte → List Byte → Nat → List Byte × Nat × Bool
  | [], buffer, len => (buffer, len, false)
  | b :: bs, buffer, len =>
    if b ≠ 0 then jtag_writebuffer_chunk bs (buffer ++ [b]) (len + 1)
    else (buffer, len, true)

/-- The outer `for (i = WRITEBUF_BEGIN; i < WRITEBUF_END; i += 4)` of
`jtag_writebuffer`; the first argument bounds the number of iterations. -/
def jtag_writebuffer_loop (WRITEBUF_END : Nat) :
    Nat → Nat → List Byte → Nat → Machine → List Byte × Nat × Machine
  | 0, _, buffer, len, J => (buffer, len, J)
  | fuel + 1, i, buffer, len, J =>
    if i < WRITEBUF_END then
      let J1 := J.emit [Event.lock Mutex.JTAG_mutex]
      let r := J1.readMemory i
      let J2 := r.2.emit [Event.unlock Mutex.JTAG_mutex]
      let c := jtag_writebuffer_chunk (chunk_bytes r.1) buffer len
      if c.2.2 then (c.1, c.2.1, J2)
      else jtag_writebuffer_loop WRITEBUF_END fuel (i + 4) c.1 c.2.1 J2
    else (buffer, len, J)

/-- Encode, `jtag_writebuffer(pJtag, buffer)`: returns `len`, the bytes stored
from `buffer` on (the final one is the terminator), and the machine. -/
def jtag_writebuffer (WRITEBUF_BEGIN WRITEBUF_END : Nat) (J : Machine) :
    Nat × List Byte × Machine :=
  let r := jtag_writebuffer_loop WRITEBUF_END (WRITEBUF_END - WRITEBUF_BEGIN) WRITEBUF_BEGIN [] 0 J
  (r.2.1, r.1 ++ [0], r.2.2)

/-- The inner `for (j ...)` of `jtag_readbuffer`: fills the remaining bytes of
the chunk from the source; a null source byte stores zero, sets `finished`
and does not advance the source. Returns the chunk bytes, the source pointer,
`len` and `finished`. -/
def jtag_readbuffer_chunk :
    Nat → List Byte → List Byte → Nat → Bool → List Byte × List Byte × Nat × Bool
  | 0, bytes, buffer, len, finished => (bytes, buffer, len, finished)
  | n + 1, bytes, buffer, len, finished =>
    if buffer.headD 0 ≠ 0 then
      jtag_readbuffer_chunk n (bytes ++ [buffer.headD 0]) buffer.tail (len + 1) finished
    else
      jtag_readbuffer_chunk n (bytes ++ [0]) buffer len true

/-- The outer `for (i = READBUF_BEGIN; i < READBUF_END; i += 4)` of
`jtag_readbuffer`; the first argument bounds the number of iterations. -/
def jtag_readbuffer_loop (READBUF_END : Nat) :
    Nat → Nat → List Byte → Nat → Bool → Machine → Nat × Machine
  | 0, _, _, len, _, J => (len, J)
  | fuel + 1, i, buffer, len, finished, J =>
    if i < READBUF_END then
      let c := jtag_readbuffer_chunk 4 [] buffer len finished
      let J1 := J.emit [Event.lock Mutex.JTAG_mutex]
      let J2 := J1.writeMemory i (chunk_word c.1)
      let J3 := J2.emit [Event.unlock Mutex.JTAG_mutex]
      if c.2.2.2 then (c.2.2.1, J3)
      else jtag_readbuffer_loop READBUF_END fuel (i + 4) c.2.1 c.2.2.1 c.2.2.2 J3
    else (len, J)

/-- Decode, `jtag_readbuffer(buffer, pJtag)`: returns `len` and the machine. -/
def jtag_readbuffer (READBUF_BEGIN READBUF_END : Nat) (buffer : List Byte) (J : Machine) :
    Nat × Machine :=
  jtag_readbuffer_loop READBUF_END (READBUF_END - READBUF_BEGIN) READBUF_BEGIN buffer 0 false J

/-! ## basic_io.cpp: terminal and network transfers -/

/-- The constants of the absent `mmap.h` and `basic_io.h`. -/
structure Config where
  WRITEBUF_BEGIN : Nat
  WRITEBUF_END : Nat
  READBUF_BEGIN : Nat
  READBUF_END : Nat
  IO_TYPE : Nat
  ACK_TYPE : Nat
  BUF_SIZE : Nat

/-- How one pass through the body of a task's `while (1)` ends: back at its
`signal_wait`, in `panic`, or stuck polling a serial port that delivers nothing. -/
inductive Outcome where
  | waiting
  | halted
  | blocked
  deriving DecidableEq, Repr

/-- Modelled from the spec: `panic` of the absent `panic.h` reports its
diagnostic message and halts the whole process. -/
def panic (msg : Message) (M : Machine) : Outcome × Machine :=
  (Outcome.halted, M.emit [Event.panic msg])

/-- The call `mbed_printf(format, ...)`: the formatted text goes out under
`term_write_mutex`; the characters put on the serial port are one `printf` event. -/
def mbed_printf (msg : Message) (M : Machine) : Machine :=
  ((M.emit [Event.lock Mutex.term_write_mutex]).emit [Event.printf msg]).emit
    [Event.unlock Mutex.term_write_mutex]

/-- The `while (i < size)` of `term_sendbuffer`; polling `pc.writeable()` until
it holds changes nothing. The first argument bounds the number of iterations. -/
def term_sendbuffer_loop (buffer : List Byte) (size : Nat) : Nat → Nat → Machine → Machine
  | 0, _, M => M
  | fuel + 1, i, M =>
    if i < size then
      if buffer.getD i 0 ≠ 0 then
        term_sendbuffer_loop buffer size fuel (i + 1) (M.emit [Event.putc (buffer.getD i 0)])
      else M
    else M

def term_sendbuffer (buffer : List Byte) (size : Nat) (M : Machine) : Machine :=
  term_sendbuffer_loop buffer size size 0 M

/-- The `while (i < size-1)` of `term_readbuffer` (`size_t` arithmetic, 32 bit);
`i` is the length of the text stored so far. With nothing left to read the
poll of `pc.readable()` never succeeds and there is no result. Returns the
stored text. -/
def term_readbuffer_loop (size : Nat) :
    List Byte → List Byte → Machine → Option (List Byte) × Machine
  | [], buffer, M =>
    if buffer.length < (size + 2 ^ 32 - 1) % 2 ^ 32 then (none, { M with pc := [] })
    else (some buffer, { M with pc := [] })
  | temp :: rest, buffer, M =>
    if buffer.length < (size + 2 ^ 32 - 1) % 2 ^ 32 then
      if temp = 13 then (some buffer, ({ M with pc := rest }).emit [Event.getc temp])
      else
        term_readbuffer_loop size rest (buffer ++ [temp])
          (({ M with pc := rest }).emit [Event.getc temp])
    else (some buffer, { M with pc := temp :: rest })

def term_readbuffer (size : Nat) (M : Machine) : Option (List Byte) × Machine :=
  term_readbuffer_loop size M.pc [] M

def term_printf (cfg : Config) (M : Machine) : Nat × Machine :=
  let M1 := M.emit [Event.lock Mutex.term_write_mutex]
  let w := jtag_writebuffer cfg.WRITEBUF_BEGIN cfg.WRITEBUF_END M1
  let M2 := term_sendbuffer w.2.1 cfg.BUF_SIZE w.2.2
  (w.1, M2.emit [Event.unlock Mutex.term_write_mutex])

def term_scanf (cfg : Config) (M : Machine) : Option Nat × Machine :=
  let M1 := M.emit [Event.lock Mutex.term_read_mutex]
  let t := term_readbuffer cfg.BUF_SIZE M1
  match t.1 with
  | none => (none, t.2)
  | some term_rxbuffer =>
    let r := jtag_readbuffer cfg.READBUF_BEGIN cfg.READBUF_END term_rxbuffer t.2
    (some r.1, r.2.emit [Event.unlock Mutex.term_read_mutex])

/-- The two `for` loops of `debug_print` over a window; the first argument bounds
the number of iterations. -/
def debug_print_loop (END : Nat) : Nat → Nat → Machine → Machine
  | 0, _, M => M
  | fuel + 1, i, M =>
    if i < END then
      let r := M.readMemory i
      debug_print_loop END fuel (i + 4) (mbed_printf (Message.hex_word r.1) r.2)
    else M

def debug_print (cfg : Config) (M : Machine) : Machine :=
  let M1 := debug_print_loop cfg.WRITEBUF_END (cfg.WRITEBUF_END - cfg.WRITEBUF_BEGIN)
    cfg.WRITEBUF_BEGIN M
  let M2 := mbed_printf Message.blank_line M1
  debug_print_loop cfg.READBUF_END (cfg.READBUF_END - cfg.READBUF_BEGIN) cfg.READBUF_BEGIN M2

/-- The call `inet_printf(pJtag)`; `sendTo_result` is what the socket returns
(`socket_send.init()`, `sendTo` and `close()` are the one `sendTo` event). -/
def inet_printf (cfg : Config) (sendTo_result : Int) (M : Machine) : Int × Machine :=
  if M.ethernet_open = false then (-1, M)
  else
    let w := jtag_writebuffer cfg.WRITEBUF_BEGIN cfg.WRITEBUF_END M
    (sendTo_result, w.2.2.emit [Event.sendTo w.2.1 cfg.BUF_SIZE])

/-- The call `inet_scanf(pJtag)`; `receiveFrom_result` is what the socket returns
and `datagram` the payload it stored from `inet_rxbuffer[0]` on. -/
def inet_scanf (cfg : Config) (receiveFrom_result : Int) (datagram : List Byte) (M : Machine) :
    Int × Machine :=
  if M.ethernet_open = false then (-1, M)
  else
    let M1 := M.emit [Event.receiveFrom cfg.BUF_SIZE]
    if receiveFrom_result ≤ 0 then (receiveFrom_result, M1)
    else
      let M2 := M1.emit [Event.store_rx receiveFrom_result.toNat]
      let r := jtag_readbuffer cfg.READBUF_BEGIN cfg.READBUF_END
        (datagram.take receiveFrom_result.toNat) M2
      ((r.1 : Int), r.2)

/-! ## main.cpp: one pass through the body of each task -/

def dispatch_loop (cfg : Config) (M : Machine) : Machine :=
  let M1 := M.emit [Event.signal_wait SIG_DISPATCH]
  let M2 := M1.emit [Event.lock Mutex.JTAG_mutex]
  let r := M2.readMemory cfg.IO_TYPE
  let M3 := r.2.emit [Event.unlock Mutex.JTAG_mutex]
  let type := r.1
  if type = PANIC_REQ then
    M3.emit [Event.signal_set ThreadId.term_write_thread SIG_TERM_WRITE]
  else if type = TERM_PRINT_REQ then
    M3.emit [Event.signal_set ThreadId.term_write_thread SIG_TERM_WRITE]
  else if type = TERM_SCAN_REQ then
    M3.emit [Event.signal_set ThreadId.term_read_thread SIG_TERM_READ]
  else if type = INET_PRINT_REQ then
    M3.emit [Event.signal_set ThreadId.inet_write_thread SIG_INET_WRITE]
  else if type = INET_SCAN_REQ then
    M3.emit [Event.signal_set ThreadId.inet_read_thread SIG_INET_READ]
  else
    mbed_printf (Message.unsupported_request type) M3

def term_write_loop (cfg : Config) (M : Machine) : Outcome × Machine :=
  let M1 := M.emit [Event.signal_wait SIG_TERM_WRITE]
  let M2 := (term_printf cfg M1).2
  let M3 := M2.emit [Event.lock Mutex.JTAG_mutex]
  let M4 := M3.writeMemory cfg.ACK_TYPE PRINT_ACK
  let M5 := M4.emit [Event.ack_intr 1, Event.ack_intr 0]
  (Outcome.waiting, M5.emit [Event.unlock Mutex.JTAG_mutex])

def term_read_loop (cfg : Config) (M : Machine) : Outcome × Machine :=
  let M1 := M.emit [Event.signal_wait SIG_TERM_READ]
  let r := term_scanf cfg M1
  match r.1 with
  | none => (Outcome.blocked, r.2)
  | some _ =>
    let M3 := r.2.emit [Event.lock Mutex.JTAG_mutex]
    let M4 := M3.writeMemory cfg.ACK_TYPE SCAN_ACK
    let M5 := M4.emit [Event.ack_intr 1, Event.ack_intr 0]
    (Outcome.waiting, M5.emit [Event.unlock Mutex.JTAG_mutex])

def inet_write_loop (cfg : Config) (sendTo_result : Int) (M : Machine) : Outcome × Machine :=
  let M1 := M.emit [Event.signal_wait SIG_INET_WRITE]
  let r := inet_printf cfg sendTo_result M1
  if r.1 ≤ 0 then panic Message.inet_printf_failed r.2
  else
    let M3 := r.2.emit [Event.lock Mutex.JTAG_mutex]
    let M4 := M3.writeMemory cfg.ACK_TYPE PRINT_ACK
    let M5 := M4.emit [Event.ack_intr 1, Event.ack_intr 0]
    (Outcome.waiting, M5.emit [Event.unlock Mutex.JTAG_mutex])

def inet_read_loop (cfg : Config) (receiveFrom_result : Int) (datagram : List Byte)
    (M : Machine) : Outcome × Machine :=
  let M1 := M.emit [Event.signal_wait SIG_INET_READ]
  let r := inet_scanf cfg receiveFrom_result datagram M1
  if r.1 ≤ 0 then panic Message.inet_scanf_failed r.2
  else
    let M3 := r.2.emit [Event.lock Mutex.JTAG_mutex]
    let M4 := M3.writeMemory cfg.ACK_TYPE SCAN_ACK
    let M5 := M4.emit [Event.ack_intr 1, Event.ack_intr 0]
    (Outcome.waiting, M5.emit [Event.unlock Mutex.JTAG_mutex])

def debug_loop (cfg : Config) (M : Machine) : Machine :=
  let M1 := M.emit [Event.signal_wait SIG_DEBUG]
  let M2 :=
    if M1.init then
      let A := M1.emit [Event.lock Mutex.JTAG_mutex]
      let B := A.emit [Event.jtag_reset, Event.jtag_leaveState, Event.jtag_PowerupDAP]
      ({ B with init := false }).emit [Event.unlock Mutex.JTAG_mutex]
    else M1
  debug_print cfg M2

/-! ## Observations on traces -/

/-- The events a call appended to the trace. -/
def new_events (before after : Machine) : List Event :=
  after.trace.drop before.trace.length

/-- The word addresses written, in order. -/
def writes : List Event → List Nat
  | [] => []
  | Event.writeMemory a _ :: es => a :: writes es
  | _ :: es => writes es

/-- The wake signals set, in order. -/
def signals_set : List Event → List (ThreadId × Nat)
  | [] => []
  | Event.signal_set t s :: es => (t, s) :: signals_set es
  | _ :: es => signals_set es

/-- The messages printed, in order. -/
def printed : List Event → List Message
  | [] => []
  | Event.printf m :: es => m :: printed es
  | _ :: es => printed es

/-- The writes to the word at `ACK_TYPE` and the levels driven on `ack_intr`. -/
def ack_events (ACK_TYPE : Nat) : List Event → List Event
  | [] => []
  | Event.writeMemory a v :: es =>
    if a = ACK_TYPE then Event.writeMemory a v :: ack_events ACK_TYPE es
    else ack_events ACK_TYPE es
  | Event.ack_intr l :: es => Event.ack_intr l :: ack_events ACK_TYPE es
  | _ :: es => ack_events ACK_TYPE es

/-- The acknowledgment at the end of a worker cycle: under `JTAG_mutex`, one write
of `value` to the word at `ACK_TYPE`, then `ack_intr = 1; ack_intr = 0`. -/
def ack_handshake (ACK_TYPE value : Nat) : List Event :=
  [Event.lock Mutex.JTAG_mutex, Event.writeMemory ACK_TYPE value, Event.ack_intr 1,
    Event.ack_intr 0, Event.unlock Mutex.JTAG_mutex]

/-- Whether every `readMemory` / `writeMemory` of a task's trace happens while
the task holds `JTAG_mutex`; `held` tells whether it holds it at the start. -/
def jtag_locked : Bool → List Event → Bool
  | _, [] => true
  | _, Event.lock Mutex.JTAG_mutex :: es => jtag_locked true es
  | _, Event.unlock Mutex.JTAG_mutex :: es => jtag_locked false es
  | held, Event.readMemory _ :: es => held && jtag_locked held es
  | held, Event.writeMemory _ _ :: es => held && jtag_locked held es
  | held, _ :: es => jtag_locked held es

/-- A stretch of a trace that starts and ends without `JTAG_mutex` held and keeps
every memory access inside it: it does not change how the rest is judged. -/
def balanced (es : List Event) : Prop :=
  ∀ ys, jtag_locked false (es ++ ys) = jtag_locked false ys

/-- The datagrams handed to the socket. -/
def sent : List Event → List (List Byte)
  | [] => []
  | Event.sendTo d _ :: es => d :: sent es
  | _ :: es => sent es

/-- The messages `panic` was called with. -/
def panics : List Event → List Message
  | [] => []
  | Event.panic m :: es => m :: panics es
  | _ :: es => panics es

/-- The indices of `inet_rxbuffer` at which a terminator was stored. -/
def rx_stores : List Event → List Nat
  | [] => []
  | Event.store_rx k :: es => k :: rx_stores es
  | _ :: es => rx_stores es

/-- The word addresses of a window `[BEGIN, END)`, in address order. -/
def window_addrs (BEGIN END : Nat) : List Nat :=
  (List.range ((END - BEGIN + 3) / 4)).map (fun k => BEGIN + 4 * k)

/-- The window as the byte sequence of its words in address order, the bytes of
each word in memory order. -/
def window_bytes (mem : Nat → Nat) (BEGIN END : Nat) : List Byte :=
  (window_addrs BEGIN END).flatMap (fun a => chunk_bytes (mem a))

/-- Reference definition of Encode: the bytes before the first null byte of the
window, then one null terminator; the result is the number of bytes copied. -/
def Encode_reference (mem : Nat → Nat) (BEGIN END : Nat) : Nat × List Byte :=
  (((window_bytes mem BEGIN END).takeWhile (fun b => b ≠ 0)).length,
    (window_bytes mem BEGIN END).takeWhile (fun b => b ≠ 0) ++ [0])

/-- The four source bytes that go into the word with index `k` (zero past the end). -/
def source_chunk (buffer : List Byte) (k : Nat) : List Byte :=
  [buffer.getD (4 * k) 0, buffer.getD (4 * k + 1) 0, buffer.getD (4 * k + 2) 0,
    buffer.getD (4 * k + 3) 0]

/-- The events of Encode: one locked read per word visited. -/
def locked_reads (addrs : List Nat) : List Event :=
  addrs.flatMap (fun a =>
    [Event.lock Mutex.JTAG_mutex, Event.readMemory a, Event.unlock Mutex.JTAG_mutex])

/-! ## Concrete inputs -/

def J0 : Machine := ⟨fun _ => 0xdeadbeef, [], true, true, []⟩

def world : List Byte := [119, 111, 114, 108, 100]

def alphabet9 : List Byte := [97, 98, 99, 100, 101, 102, 103, 104, 105]

/-- Outbound window `[16, 32)`, Inbound window `[32, 48)`, status word at 0, Ack
word at 4, buffers of 64 bytes. -/
def cfg0 : Config := ⟨16, 32, 32, 48, 0, 4, 64⟩

/-- The same memory map with buffers of 8 bytes. -/
def cfg8 : Config := ⟨16, 32, 32, 48, 0, 4, 8⟩

/-- A machine whose console will deliver "hi" and a carriage return. -/
def M_hi : Machine := ⟨fun _ => 0xdeadbeef, [], true, true, [104, 105, 13]⟩

/-- A machine whose network transport was never initialized. -/
def M_closed : Machine := ⟨fun _ => 0xdeadbeef, [], false, true, []⟩

/-! ## The chunk union -/

theorem chunk_bytes_chunk_word (a b c d : Byte) :
    chunk_bytes (chunk_word [a, b, c, d]) = [a, b, c, d] := by
  simp only [chunk_bytes, chunk_byte, chunk_word]
  have ha := a.isLt
  have hb := b.isLt
  have hc := c.isLt
  have hd := d.isLt
  refine List.cons_eq_cons.mpr ⟨Fin.ext ?_, List.cons_eq_cons.mpr ⟨Fin.ext ?_,
    List.cons_eq_cons.mpr ⟨Fin.ext ?_, List.cons_eq_cons.mpr ⟨Fin.ext ?_, rfl⟩⟩⟩⟩ <;>
  simp only [] <;> omega

/-! ## Decode -/

theorem writes_append (xs ys : List Event) : writes (xs ++ ys) = writes xs ++ writes ys := by
  induction xs with
  | nil => rfl
  | cons e es ih => cases e <;> simp [writes, ih]

theorem new_events_append (J K : Machine) (es : List Event) (h : K.trace = J.trace ++ es) :
    new_events J K = es := by
  simp [new_events, h]

theorem jtag_readbuffer_chunk_four (buffer : List Byte) (len : Nat) (finished : Bool)
    (h : ∀ b ∈ buffer, b ≠ 0) :
    jtag_readbuffer_chunk 4 [] buffer len finished =
      (source_chunk buffer 0, buffer.drop 4, len + min 4 buffer.length,
        finished || decide (buffer.length < 4)) := by
  match buffer, h with
  | [], _ => simp [jtag_readbuffer_chunk, source_chunk]
  | [a], h =>
    have ha : a ≠ 0 := h a (by simp)
    simp [jtag_readbuffer_chunk, source_chunk, ha]
  | [a, b], h =>
    have ha : a ≠ 0 := h a (by simp)
    have hb : b ≠ 0 := h b (by simp)
    simp [jtag_readbuffer_chunk, source_chunk, ha, hb]
  | [a, b, c], h =>
    have ha : a ≠ 0 := h a (by simp)
    have hb : b ≠ 0 := h b (by simp)
    have hc : c ≠ 0 := h c (by simp)
    simp [jtag_readbuffer_chunk, source_chunk, ha, hb, hc]
  | a :: b :: c :: d :: rest, h =>
    have ha : a ≠ 0 := h a (by simp)
    have hb : b ≠ 0 := h b (by simp)
    have hc : c ≠ 0 := h c (by simp)
    have hd : d ≠ 0 := h d (by simp)
    simp [jtag_readbuffer_chunk, source_chunk, ha, hb, hc, hd]

theorem jtag_readbuffer_loop_step (END fuel i : Nat) (buffer : List Byte) (len : Nat)
    (J : Machine) (h : ∀ b ∈ buffer, b ≠ 0) (hi : i < END) :
    jtag_readbuffer_loop END (fuel + 1) i buffer len false J =
      if buffer.length < 4 then
        (len + buffer.length, ((J.emit [Event.lock Mutex.JTAG_mutex]).writeMemory i
          (chunk_word (source_chunk buffer 0))).emit [Event.unlock Mutex.JTAG_mutex])
      else
        jtag_readbuffer_loop END fuel (i + 4) (buffer.drop 4) (len + 4) false
          (((J.emit [Event.lock Mutex.JTAG_mutex]).writeMemory i
            (chunk_word (source_chunk buffer 0))).emit [Event.unlock Mutex.JTAG_mutex]) := by
  by_cases hL : buffer.length < 4
  · have hm : min 4 buffer.length = buffer.length := by omega
    simp [jtag_readbuffer_loop, hi, jtag_readbuffer_chunk_four buffer len false h, hL, hm]
  · have hm : min 4 buffer.length = 4 := by omega
    simp [jtag_readbuffer_loop, hi, jtag_readbuffer_chunk_four buffer len false h, hL, hm]

theorem source_chunk_drop (buffer : List Byte) (k : Nat) :
    source_chunk (buffer.drop 4) k = source_chunk buffer (k + 1) := by
  simp [source_chunk, List.getD_eq_getElem?_getD, List.getElem?_drop]
  refine ⟨?_, ?_, ?_, ?_⟩ <;> congr 2 <;> omega

theorem range_map_shift (n i : Nat) :
    (List.range (n + 1)).map (fun k => i + 4 * k) =
      i :: (List.range n).map (fun k => i + 4 + 4 * k) := by
  rw [List.range_succ_eq_map]
  simp only [List.map_cons, List.map_map, Nat.mul_zero, Nat.add_zero]
  congr 1
  apply List.map_congr_left
  intro k _
  simp only [Function.comp_apply]
  omega

theorem jtag_readbuffer_loop_spec (END : Nat) :
    ∀ (fuel i : Nat) (buffer : List Byte) (len : Nat) (J : Machine),
      (∀ b ∈ buffer, b ≠ 0) → (END - i + 3) / 4 ≤ fuel →
      ∃ es, (jtag_readbuffer_loop END fuel i buffer len false J).2.trace = J.trace ++ es ∧
        (jtag_readbuffer_loop END fuel i buffer len false J).1 =
          len + min buffer.length (4 * ((END - i + 3) / 4)) ∧
        writes es = (List.range (min (buffer.length / 4 + 1) ((END - i + 3) / 4))).map
          (fun k => i + 4 * k) ∧
        (∀ k, k < min (buffer.length / 4 + 1) ((END - i + 3) / 4) →
          (jtag_readbuffer_loop END fuel i buffer len false J).2.mem (i + 4 * k) =
            chunk_word (source_chunk buffer k)) ∧
        (∀ a, (∀ k, k < min (buffer.length / 4 + 1) ((END - i + 3) / 4) → a ≠ i + 4 * k) →
          (jtag_readbuffer_loop END fuel i buffer len false J).2.mem a = J.mem a) := by
  intro fuel
  induction fuel with
  | zero =>
    intro i buffer len J _ hf
    have hW : (END - i + 3) / 4 = 0 := by omega
    refine ⟨[], ?_, ?_, ?_, ?_, ?_⟩ <;> simp [jtag_readbuffer_loop, hW, writes]
  | succ fuel ih =>
    intro i buffer len J h hf
    by_cases hi : i < END
    · rw [jtag_readbuffer_loop_step END fuel i buffer len J h hi]
      have hW : (END - i + 3) / 4 = (END - (i + 4) + 3) / 4 + 1 := by omega
      by_cases hL : buffer.length < 4
      · have hn : min (buffer.length / 4 + 1) ((END - i + 3) / 4) = 1 := by omega
        rw [hn]
        refine ⟨[Event.lock Mutex.JTAG_mutex,
          Event.writeMemory i (chunk_word (source_chunk buffer 0)),
          Event.unlock Mutex.JTAG_mutex], ?_, ?_, ?_, ?_, ?_⟩
        · simp [hL, Machine.emit, Machine.writeMemory]
        · simp only [hL, if_true]; omega
        · simp [writes, List.range_succ]
        · intro k hk
          have hk0 : k = 0 := by omega
          subst hk0
          simp [hL, Machine.emit, Machine.writeMemory]
        · intro a ha
          have hai : a ≠ i := by simpa using ha 0 (by omega)
          simp [hL, Machine.emit, Machine.writeMemory, hai]
      · have hd : ∀ b ∈ buffer.drop 4, b ≠ 0 := fun b hb => h b (List.mem_of_mem_drop hb)
        obtain ⟨es, h1, h2, h3, h4, h5⟩ := ih (i + 4) (buffer.drop 4) (len + 4)
          (((J.emit [Event.lock Mutex.JTAG_mutex]).writeMemory i
            (chunk_word (source_chunk buffer 0))).emit [Event.unlock Mutex.JTAG_mutex]) hd
          (by omega)
        have hlen : (buffer.drop 4).length = buffer.length - 4 := by simp
        have hn : min (buffer.length / 4 + 1) ((END - i + 3) / 4) =
            min ((buffer.drop 4).length / 4 + 1) ((END - (i + 4) + 3) / 4) + 1 := by
          rw [hlen]; omega
        rw [hn]
        simp only [hL, if_false]
        refine ⟨[Event.lock Mutex.JTAG_mutex,
          Event.writeMemory i (chunk_word (source_chunk buffer 0)),
          Event.unlock Mutex.JTAG_mutex] ++ es, ?_, ?_, ?_, ?_, ?_⟩
        · rw [h1]; simp [Machine.emit, Machine.writeMemory]
        · rw [h2, hlen]; omega
        · rw [writes_append, h3, range_map_shift]; simp [writes]
        · intro k hk
          cases k with
          | zero =>
            have e : i + 4 * 0 = i := by omega
            rw [e, h5 i (fun k _ => by omega)]
            simp [Machine.emit, Machine.writeMemory]
          | succ k =>
            have := h4 k (by omega)
            rw [source_chunk_drop] at this
            rw [← this]
            congr 1
            omega
        · intro a ha
          have hai : a ≠ i := by simpa using ha 0 (by omega)
          rw [h5 a (fun k hk => by have := ha (k + 1) (by omega); omega)]
          simp [Machine.emit, Machine.writeMemory, hai]
    · have hW : (END - i + 3) / 4 = 0 := by omega
      refine ⟨[], ?_, ?_, ?_, ?_, ?_⟩ <;> simp [jtag_readbuffer_loop, hi, hW, writes]

/-! ## Encode -/

theorem window_addrs_lt (i END : Nat) (hi : i < END) :
    window_addrs i END = i :: window_addrs (i + 4) END := by
  have hW : (END - i + 3) / 4 = (END - (i + 4) + 3) / 4 + 1 := by omega
  simp only [window_addrs]
  rw [hW, range_map_shift]

theorem window_addrs_ge (i END : Nat) (hi : ¬ i < END) : window_addrs i END = [] := by
  have hW : (END - i + 3) / 4 = 0 := by omega
  simp [window_addrs, hW]

theorem window_bytes_lt (mem : Nat → Nat) (i END : Nat) (hi : i < END) :
    window_bytes mem i END = chunk_bytes (mem i) ++ window_bytes mem (i + 4) END := by
  simp [window_bytes, window_addrs_lt i END hi]

theorem window_bytes_ge (mem : Nat → Nat) (i END : Nat) (hi : ¬ i < END) :
    window_bytes mem i END = [] := by
  simp [window_bytes, window_addrs_ge i END hi]

theorem window_bytes_length (mem : Nat → Nat) (END : Nat) :
    ∀ (n i : Nat), (END - i + 3) / 4 ≤ n →
      (window_bytes mem i END).length = 4 * ((END - i + 3) / 4) := by
  intro n
  induction n with
  | zero =>
    intro i h
    rw [window_bytes_ge mem i END (by omega)]
    simp; omega
  | succ n ih =>
    intro i h
    by_cases hi : i < END
    · rw [window_bytes_lt mem i END hi, List.length_append, ih (i + 4) (by omega)]
      simp [chunk_bytes]; omega
    · rw [window_bytes_ge mem i END hi]
      simp; omega

theorem jtag_writebuffer_chunk_spec :
    ∀ (bs buffer : List Byte) (len : Nat),
      jtag_writebuffer_chunk bs buffer len =
        (buffer ++ bs.takeWhile (fun b => b ≠ 0), len + (bs.takeWhile (fun b => b ≠ 0)).length,
          !(bs.all (fun b => b ≠ 0))) := by
  intro bs
  induction bs with
  | nil => intro buffer len; simp [jtag_writebuffer_chunk]
  | cons b bs ih =>
    intro buffer len
    by_cases hb : b = 0
    · simp [jtag_writebuffer_chunk, hb]
    · simp [jtag_writebuffer_chunk, hb, ih, List.takeWhile_cons]
      omega

theorem takeWhile_append_all (p : Byte → Bool) (xs ys : List Byte) (h : xs.all p = true) :
    (xs ++ ys).takeWhile p = xs ++ ys.takeWhile p := by
  induction xs with
  | nil => rfl
  | cons x xs ih =>
    simp only [List.all_cons, Bool.and_eq_true] at h
    simp [List.takeWhile_cons, h.1, ih h.2]

theorem takeWhile_append_not_all (p : Byte → Bool) (xs ys : List Byte) (h : xs.all p = false) :
    (xs ++ ys).takeWhile p = xs.takeWhile p := by
  induction xs with
  | nil => simp at h
  | cons x xs ih =>
    by_cases hx : p x = true
    · have h2 : xs.all p = false := by simpa [hx] using h
      simp [List.takeWhile_cons, hx, ih h2]
    · simp [List.takeWhile_cons, hx]

theorem takeWhile_all (p : Byte → Bool) (xs : List Byte) (h : xs.all p = true) :
    xs.takeWhile p = xs := by
  have := takeWhile_append_all p xs [] h
  simpa using this

theorem jtag_writebuffer_loop_spec (END : Nat) :
    ∀ (fuel i : Nat) (buffer : List Byte) (len : Nat) (J : Machine),
      (END - i + 3) / 4 ≤ fuel →
      (jtag_writebuffer_loop END fuel i buffer len J).1 =
          buffer ++ (window_bytes J.mem i END).takeWhile (fun b => b ≠ 0) ∧
        (jtag_writebuffer_loop END fuel i buffer len J).2.1 =
          len + ((window_bytes J.mem i END).takeWhile (fun b => b ≠ 0)).length ∧
        (jtag_writebuffer_loop END fuel i buffer len J).2.2.mem = J.mem ∧
        ∃ addrs, (jtag_writebuffer_loop END fuel i buffer len J).2.2.trace =
          J.trace ++ locked_reads addrs := by
  intro fuel
  induction fuel with
  | zero =>
    intro i buffer len J hf
    rw [window_bytes_ge J.mem i END (by omega)]
    refine ⟨?_, ?_, ?_, [], ?_⟩ <;> simp [jtag_writebuffer_loop, locked_reads]
  | succ fuel ih =>
    intro i buffer len J hf
    by_cases hi : i < END
    · rw [window_bytes_lt J.mem i END hi]
      by_cases hall : (chunk_bytes (J.mem i)).all (fun b => b ≠ 0) = true
      · obtain ⟨h1, h2, h3, addrs, h4⟩ := ih (i + 4) (buffer ++ chunk_bytes (J.mem i))
          (len + (chunk_bytes (J.mem i)).length)
          (((J.emit [Event.lock Mutex.JTAG_mutex]).readMemory i).2.emit
            [Event.unlock Mutex.JTAG_mutex]) (by omega)
        have hmem : (((J.emit [Event.lock Mutex.JTAG_mutex]).readMemory i).2.emit
            [Event.unlock Mutex.JTAG_mutex]).mem = J.mem := rfl
        rw [hmem] at h1 h2 h3
        have hstep : jtag_writebuffer_loop END (fuel + 1) i buffer len J =
            jtag_writebuffer_loop END fuel (i + 4) (buffer ++ chunk_bytes (J.mem i))
              (len + (chunk_bytes (J.mem i)).length)
              (((J.emit [Event.lock Mutex.JTAG_mutex]).readMemory i).2.emit
                [Event.unlock Mutex.JTAG_mutex]) := by
          simp only [jtag_writebuffer_loop, hi, if_true, Machine.readMemory, Machine.emit,
            jtag_writebuffer_chunk_spec, hall, Bool.not_true, Bool.false_eq_true, if_false,
            takeWhile_all _ _ hall]
        rw [hstep, takeWhile_append_all _ _ _ hall]
        refine ⟨?_, ?_, h3, i :: addrs, ?_⟩
        · rw [h1]; simp
        · rw [h2]; simp; omega
        · rw [h4]; simp [locked_reads, Machine.readMemory, Machine.emit]
      · have hall2 : (chunk_bytes (J.mem i)).all (fun b => b ≠ 0) = false := by
          simpa using hall
        have hstep : jtag_writebuffer_loop END (fuel + 1) i buffer len J =
            (buffer ++ (chunk_bytes (J.mem i)).takeWhile (fun b => b ≠ 0),
              len + ((chunk_bytes (J.mem i)).takeWhile (fun b => b ≠ 0)).length,
              ((J.emit [Event.lock Mutex.JTAG_mutex]).readMemory i).2.emit
                [Event.unlock Mutex.JTAG_mutex]) := by
          simp only [jtag_writebuffer_loop, hi, if_true, Machine.readMemory, Machine.emit,
            jtag_writebuffer_chunk_spec, hall2, Bool.not_false]
        rw [hstep, takeWhile_append_not_all _ _ _ hall2]
        refine ⟨rfl, rfl, rfl, [i], ?_⟩
        simp [locked_reads, Machine.readMemory, Machine.emit]
    · rw [window_bytes_ge J.mem i END hi]
      refine ⟨?_, ?_, ?_, [], ?_⟩ <;> simp [jtag_writebuffer_loop, hi, locked_reads]

/-! ## Round trip -/

theorem not_mem_ne (T : List Byte) (hT : 0 ∉ T) : ∀ b ∈ T, b ≠ 0 :=
  fun _ hb h0 => hT (h0 ▸ hb)

theorem takeWhile_decoded (END : Nat) :
    ∀ (n i : Nat) (T : List Byte) (mem : Nat → Nat),
      (∀ b ∈ T, b ≠ 0) → T.length < END - i → T.length / 4 < n →
      (∀ k, k ≤ T.length / 4 → mem (i + 4 * k) = chunk_word (source_chunk T k)) →
      (window_bytes mem i END).takeWhile (fun b => b ≠ 0) = T := by
  intro n
  induction n with
  | zero => intro i T mem _ _ h; omega
  | succ n ih =>
    intro i T mem hT hL hn hmem
    have hi : i < END := by omega
    have h0 := hmem 0 (by omega)
    rw [Nat.mul_zero, Nat.add_zero] at h0
    rw [window_bytes_lt mem i END hi, h0]
    match T, hT, hL, hn, hmem, h0 with
    | [], _, _, _, _, _ =>
      simp [source_chunk, chunk_bytes_chunk_word, List.takeWhile_cons]
    | [a], hT, _, _, _, _ =>
      have ha : a ≠ 0 := hT a (by simp)
      simp [source_chunk, chunk_bytes_chunk_word, List.takeWhile_cons, ha]
    | [a, b], hT, _, _, _, _ =>
      have ha : a ≠ 0 := hT a (by simp)
      have hb : b ≠ 0 := hT b (by simp)
      simp [source_chunk, chunk_bytes_chunk_word, List.takeWhile_cons, ha, hb]
    | [a, b, c], hT, _, _, _, _ =>
      have ha : a ≠ 0 := hT a (by simp)
      have hb : b ≠ 0 := hT b (by simp)
      have hc : c ≠ 0 := hT c (by simp)
      simp [source_chunk, chunk_bytes_chunk_word, List.takeWhile_cons, ha, hb, hc]
    | a :: b :: c :: d :: rest, hT, hL, hn, hmem, _ =>
      have ha : a ≠ 0 := hT a (by simp)
      have hb : b ≠ 0 := hT b (by simp)
      have hc : c ≠ 0 := hT c (by simp)
      have hd : d ≠ 0 := hT d (by simp)
      have hrest : ∀ x ∈ rest, x ≠ 0 := fun x hx => hT x (by simp [hx])
      simp only [List.length_cons] at hL hn hmem
      have hrec := ih (i + 4) rest mem hrest (by omega) (by omega) (fun k hk => by
        have h1 := hmem (k + 1) (by omega)
        have h2 := source_chunk_drop (a :: b :: c :: d :: rest) k
        simp only [List.drop_succ_cons, List.drop_zero] at h2
        rw [h2, ← h1]
        congr 1
        omega)
      have hsrc : source_chunk (a :: b :: c :: d :: rest) 0 = [a, b, c, d] := by
        simp [source_chunk]
      rw [hsrc, chunk_bytes_chunk_word]
      simp [List.takeWhile_cons, ha, hb, hc, hd]
      simpa using hrec

theorem fuel_enough (BEGIN END : Nat) : (END - BEGIN + 3) / 4 ≤ END - BEGIN := by omega

theorem chunk_byte_chunk_word (T : List Byte) (i j : Nat) (hj : j < 4) :
    chunk_byte (chunk_word (source_chunk T i)) j = T.getD (4 * i + j) 0 := by
  have h := chunk_bytes_chunk_word (T.getD (4 * i) 0) (T.getD (4 * i + 1) 0)
    (T.getD (4 * i + 2) 0) (T.getD (4 * i + 3) 0)
  simp only [chunk_bytes, List.cons.injEq, and_true] at h
  obtain ⟨h0, h1, h2, h3⟩ := h
  simp only [source_chunk]
  interval_cases j
  · exact h0
  · exact h1
  · exact h2
  · exact h3

/-! ## Claims on the codec -/

/-- C4: for a source text `T` without null byte whose length `L` is smaller than the
window byte-length, Decode returns `L`, writes exactly the words with index
`0..L/4` (in address order), stores in byte `j` of word `i` the source byte
`4i+j` when `4i+j < L` and zero otherwise, and leaves every other word of target
memory (in particular the window words with index above `L/4`) as it was. -/
theorem jtag_readbuffer_short_source (BEGIN END : Nat) (T : List Byte) (J : Machine)
    (hT : 0 ∉ T) (hL : T.length < END - BEGIN) :
    (jtag_readbuffer BEGIN END T J).1 = T.length ∧
      writes (new_events J (jtag_readbuffer BEGIN END T J).2) =
        (List.range (T.length / 4 + 1)).map (fun i => BEGIN + 4 * i) ∧
      (∀ i j, i ≤ T.length / 4 → j < 4 →
        chunk_byte ((jtag_readbuffer BEGIN END T J).2.mem (BEGIN + 4 * i)) j =
          if 4 * i + j < T.length then T.getD (4 * i + j) 0 else 0) ∧
      (∀ a, (∀ i, i ≤ T.length / 4 → a ≠ BEGIN + 4 * i) →
        (jtag_readbuffer BEGIN END T J).2.mem a = J.mem a) := by
  obtain ⟨es, h1, h2, h3, h4, h5⟩ := jtag_readbuffer_loop_spec END (END - BEGIN) BEGIN T 0 J
    (not_mem_ne T hT) (fuel_enough BEGIN END)
  have hn : min (T.length / 4 + 1) ((END - BEGIN + 3) / 4) = T.length / 4 + 1 := by omega
  rw [hn] at h3 h4 h5
  have h1t : (jtag_readbuffer BEGIN END T J).2.trace = J.trace ++ es := h1
  refine ⟨?_, ?_, ?_, ?_⟩
  · simp only [jtag_readbuffer]; rw [h2]; omega
  · rw [new_events_append J _ es h1t, h3]
  · intro i j hi hj
    simp only [jtag_readbuffer]
    rw [h4 i (by omega), chunk_byte_chunk_word T i j hj]
    by_cases hlt : 4 * i + j < T.length
    · rw [if_pos hlt]
    · rw [if_neg hlt]
      exact List.getD_eq_default _ _ (by omega)
  · intro a ha
    exact h5 a (fun k hk => ha k (by omega))

/-- C4 on the source "world" and the window `[16, 32)`: word 0 is `w o r l`,
word 1 is `d 0 0 0`, word 2 keeps its value, and the result is 5. -/
theorem jtag_readbuffer_short_source_witness :
    0 ∉ world ∧ world.length < 32 - 16 ∧
      (jtag_readbuffer 16 32 world J0).1 = 5 ∧
      writes (new_events J0 (jtag_readbuffer 16 32 world J0).2) = [16, 20] ∧
      chunk_byte ((jtag_readbuffer 16 32 world J0).2.mem 16) 0 = 119 ∧
      chunk_byte ((jtag_readbuffer 16 32 world J0).2.mem 16) 3 = 108 ∧
      chunk_byte ((jtag_readbuffer 16 32 world J0).2.mem 20) 0 = 100 ∧
      chunk_byte ((jtag_readbuffer 16 32 world J0).2.mem 20) 1 = 0 ∧
      (jtag_readbuffer 16 32 world J0).2.mem 24 = J0.mem 24 := by
  have h := jtag_readbuffer_short_source 16 32 world J0 (by decide) (by decide)
  obtain ⟨h1, h2, h3, h4⟩ := h
  refine ⟨by decide, by decide, h1, h2, h3 0 0 (by decide) (by decide),
    h3 0 3 (by decide) (by decide), h3 1 0 (by decide) (by decide),
    h3 1 1 (by decide) (by decide), h4 24 ?_⟩
  intro i hi
  have hi1 : i ≤ 1 := hi
  omega

/-- C1: for a text `T` without null byte and of length at most capacity - 1
(capacity = window byte-length - 1), Decode into a window followed by Encode of
the same window stores `T` and one null byte, and both calls return the length
of `T`, whatever the window held before. -/
theorem decode_encode_round_trip (BEGIN END : Nat) (T : List Byte) (J : Machine)
    (hT : 0 ∉ T) (hL : T.length ≤ (END - BEGIN - 1) - 1) :
    (jtag_readbuffer BEGIN END T J).1 = T.length ∧
      (jtag_writebuffer BEGIN END (jtag_readbuffer BEGIN END T J).2).1 = T.length ∧
      (jtag_writebuffer BEGIN END (jtag_readbuffer BEGIN END T J).2).2.1 = T ++ [0] := by
  obtain ⟨e1, e2, _, _⟩ := jtag_writebuffer_loop_spec END (END - BEGIN) BEGIN [] 0
    (jtag_readbuffer BEGIN END T J).2 (fuel_enough BEGIN END)
  have key : (window_bytes (jtag_readbuffer BEGIN END T J).2.mem BEGIN END).takeWhile
      (fun b => b ≠ 0) = T := by
    by_cases hw : BEGIN < END
    · have hlt : T.length < END - BEGIN := by omega
      obtain ⟨_, _, _, _, h4, _⟩ := jtag_readbuffer_loop_spec END (END - BEGIN) BEGIN T 0 J
        (not_mem_ne T hT) (fuel_enough BEGIN END)
      have hn : min (T.length / 4 + 1) ((END - BEGIN + 3) / 4) = T.length / 4 + 1 := by omega
      rw [hn] at h4
      exact takeWhile_decoded END (T.length / 4 + 1) BEGIN T _ (not_mem_ne T hT) hlt
        (by omega) (fun k hk => h4 k (by omega))
    · have h0 : T.length = 0 := by omega
      rw [window_bytes_ge _ BEGIN END hw, List.length_eq_zero.mp h0]
      rfl
  obtain ⟨_, _, h2, _, _, _⟩ := jtag_readbuffer_loop_spec END (END - BEGIN) BEGIN T 0 J
    (not_mem_ne T hT) (fuel_enough BEGIN END)
  refine ⟨?_, ?_, ?_⟩
  · simp only [jtag_readbuffer]; rw [h2]; omega
  · simp only [jtag_writebuffer]; rw [e2, key]; omega
  · simp only [jtag_writebuffer]; rw [e1, key]; simp

/-- C1 on the text "world" and the window `[16, 32)`. -/
theorem decode_encode_round_trip_witness :
    0 ∉ world ∧ world.length ≤ (32 - 16 - 1) - 1 ∧
      (jtag_readbuffer 16 32 world J0).1 = 5 ∧
      (jtag_writebuffer 16 32 (jtag_readbuffer 16 32 world J0).2).1 = 5 ∧
      (jtag_writebuffer 16 32 (jtag_readbuffer 16 32 world J0).2).2.1 =
        [119, 111, 114, 108, 100, 0] :=
  ⟨by decide, by decide, decode_encode_round_trip 16 32 world J0 (by decide) (by decide)⟩

/-- C2: on a word-aligned window Encode equals its reference definition: the
destination receives the window bytes before the first null byte (all of them
when there is none) and then one null terminator, the result is the number of
bytes copied, and it never exceeds the window byte-length. -/
theorem jtag_writebuffer_eq_reference (BEGIN END : Nat) (J : Machine)
    (hA : (END - BEGIN) % 4 = 0) :
    ((jtag_writebuffer BEGIN END J).1, (jtag_writebuffer BEGIN END J).2.1) =
        Encode_reference J.mem BEGIN END ∧
      (jtag_writebuffer BEGIN END J).1 ≤ END - BEGIN := by
  obtain ⟨e1, e2, _, _⟩ := jtag_writebuffer_loop_spec END (END - BEGIN) BEGIN [] 0 J
    (fuel_enough BEGIN END)
  have hlen := window_bytes_length J.mem END (END - BEGIN) BEGIN (fuel_enough BEGIN END)
  have hle := (List.takeWhile_sublist (fun b : Byte => decide (b ≠ 0))
    (l := window_bytes J.mem BEGIN END)).length_le
  refine ⟨?_, ?_⟩
  · simp only [jtag_writebuffer, Encode_reference]
    rw [e1, e2]
    simp
  · simp only [jtag_writebuffer]
    rw [e2]
    omega

/-- C2 on the window `[16, 32)` after "world" was decoded into it. -/
theorem jtag_writebuffer_eq_reference_witness :
    (32 - 16) % 4 = 0 ∧
      ((jtag_writebuffer 16 32 (jtag_readbuffer 16 32 world J0).2).1,
        (jtag_writebuffer 16 32 (jtag_readbuffer 16 32 world J0).2).2.1) =
        Encode_reference (jtag_readbuffer 16 32 world J0).2.mem 16 32 ∧
      (jtag_writebuffer 16 32 (jtag_readbuffer 16 32 world J0).2).1 ≤ 32 - 16 :=
  ⟨by decide, jtag_writebuffer_eq_reference 16 32 (jtag_readbuffer 16 32 world J0).2 (by decide)⟩

/-- C3 as stated fails: a nine byte text decoded into the eight byte window
`[16, 24)` (capacity 7) makes Decode return 8, not 7. -/
theorem jtag_readbuffer_long_source_counterexample :
    0 ∉ alphabet9 ∧ 24 - 16 - 1 < alphabet9.length ∧
      (jtag_readbuffer 16 24 alphabet9 J0).1 ≠ 24 - 16 - 1 := by
  decide

/-- C3 amended: for a source text without null byte that is longer than the
capacity of a word-aligned window, Decode returns the window byte-length
(capacity + 1), and every word address it writes lies in `[BEGIN, END)`. -/
theorem jtag_readbuffer_long_source (BEGIN END : Nat) (T : List Byte) (J : Machine)
    (hT : 0 ∉ T) (hA : (END - BEGIN) % 4 = 0) (hL : END - BEGIN - 1 < T.length) :
    (jtag_readbuffer BEGIN END T J).1 = END - BEGIN ∧
      ∀ a ∈ writes (new_events J (jtag_readbuffer BEGIN END T J).2), BEGIN ≤ a ∧ a < END := by
  obtain ⟨es, h1, h2, h3, _, _⟩ := jtag_readbuffer_loop_spec END (END - BEGIN) BEGIN T 0 J
    (not_mem_ne T hT) (fuel_enough BEGIN END)
  have h1t : (jtag_readbuffer BEGIN END T J).2.trace = J.trace ++ es := h1
  refine ⟨?_, ?_⟩
  · simp only [jtag_readbuffer]; rw [h2]; omega
  · intro a ha
    rw [new_events_append J _ es h1t, h3] at ha
    obtain ⟨k, hk, rfl⟩ := List.mem_map.mp ha
    have hk2 := List.mem_range.mp hk
    omega

/-- C3 amended, on the nine byte text and the window `[16, 24)`. -/
theorem jtag_readbuffer_long_source_witness :
    0 ∉ alphabet9 ∧ (24 - 16) % 4 = 0 ∧ 24 - 16 - 1 < alphabet9.length ∧
      (jtag_readbuffer 16 24 alphabet9 J0).1 = 24 - 16 ∧
      ∀ a ∈ writes (new_events J0 (jtag_readbuffer 16 24 alphabet9 J0).2), 16 ≤ a ∧ a < 24 :=
  ⟨by decide, by decide, by decide,
    jtag_readbuffer_long_source 16 24 alphabet9 J0 (by decide) (by decide) (by decide)⟩

/-! ## Traces of the transfers -/

theorem ack_events_append (A : Nat) (xs ys : List Event) :
    ack_events A (xs ++ ys) = ack_events A xs ++ ack_events A ys := by
  induction xs with
  | nil => rfl
  | cons e es ih =>
    cases e <;> simp [ack_events, ih]
    split <;> simp

theorem emit_trace (M : Machine) (es : List Event) : (M.emit es).trace = M.trace ++ es := rfl

theorem balanced_nil : balanced [] := fun _ => rfl

theorem balanced_append (xs zs : List Event) (hx : balanced xs) (hz : balanced zs) :
    balanced (xs ++ zs) := by
  intro ys
  rw [List.append_assoc, hx, hz]

theorem balanced_locked_read (a : Nat) :
    balanced [Event.lock Mutex.JTAG_mutex, Event.readMemory a, Event.unlock Mutex.JTAG_mutex] :=
  fun _ => by simp [jtag_locked]

theorem balanced_locked_write (a v : Nat) :
    balanced [Event.lock Mutex.JTAG_mutex, Event.writeMemory a v,
      Event.unlock Mutex.JTAG_mutex] :=
  fun _ => by simp [jtag_locked]

theorem balanced_ack_handshake (A v : Nat) : balanced (ack_handshake A v) :=
  fun _ => by simp [ack_handshake, jtag_locked]

theorem balanced_locked_reads (addrs : List Nat) : balanced (locked_reads addrs) := by
  induction addrs with
  | nil => exact balanced_nil
  | cons a addrs ih =>
    have h : locked_reads (a :: addrs) =
        [Event.lock Mutex.JTAG_mutex, Event.readMemory a, Event.unlock Mutex.JTAG_mutex] ++
          locked_reads addrs := by
      simp [locked_reads]
    rw [h]
    exact balanced_append _ _ (balanced_locked_read a) ih

theorem ack_events_locked_reads (A : Nat) (addrs : List Nat) :
    ack_events A (locked_reads addrs) = [] := by
  induction addrs with
  | nil => rfl
  | cons a addrs ih =>
    have h : locked_reads (a :: addrs) =
        [Event.lock Mutex.JTAG_mutex, Event.readMemory a, Event.unlock Mutex.JTAG_mutex] ++
          locked_reads addrs := by
      simp [locked_reads]
    rw [h, ack_events_append, ih]
    rfl

theorem jtag_writebuffer_trace (A BEGIN END : Nat) (M : Machine) :
    ∃ es, (jtag_writebuffer BEGIN END M).2.2.trace = M.trace ++ es ∧ ack_events A es = [] ∧
      balanced es := by
  obtain ⟨_, _, _, addrs, h⟩ := jtag_writebuffer_loop_spec END (END - BEGIN) BEGIN [] 0 M
    (fuel_enough BEGIN END)
  exact ⟨locked_reads addrs, h, ack_events_locked_reads A addrs, balanced_locked_reads addrs⟩

theorem term_sendbuffer_loop_trace (A : Nat) (buffer : List Byte) (size : Nat) :
    ∀ (fuel i : Nat) (M : Machine),
      ∃ es, (term_sendbuffer_loop buffer size fuel i M).trace = M.trace ++ es ∧
        ack_events A es = [] ∧ balanced es := by
  intro fuel
  induction fuel with
  | zero => intro i M; exact ⟨[], by simp [term_sendbuffer_loop], rfl, balanced_nil⟩
  | succ fuel ih =>
    intro i M
    by_cases hi : i < size
    · by_cases hb : buffer.getD i 0 = 0
      · refine ⟨[], ?_, rfl, balanced_nil⟩
        simp only [term_sendbuffer_loop, hi, if_true, ne_eq, hb, not_true_eq_false, if_false]
        simp
      · obtain ⟨es, h1, h2, h3⟩ := ih (i + 1) (M.emit [Event.putc (buffer.getD i 0)])
        refine ⟨[Event.putc (buffer.getD i 0)] ++ es, ?_, ?_, ?_⟩
        · simp only [term_sendbuffer_loop, hi, if_true, ne_eq, hb, not_false_eq_true]
          rw [h1]
          simp [Machine.emit]
        · rw [ack_events_append, h2]; rfl
        · exact balanced_append _ _ (fun _ => rfl) h3
    · exact ⟨[], by simp [term_sendbuffer_loop, hi], rfl, balanced_nil⟩

theorem term_readbuffer_loop_trace (A size : Nat) :
    ∀ (pc buffer : List Byte) (M : Machine),
      ∃ es, (term_readbuffer_loop size pc buffer M).2.trace = M.trace ++ es ∧
        ack_events A es = [] ∧ balanced es := by
  intro pc
  induction pc with
  | nil =>
    intro buffer M
    refine ⟨[], ?_, rfl, balanced_nil⟩
    simp only [term_readbuffer_loop]
    split <;> simp
  | cons temp rest ih =>
    intro buffer M
    by_cases hi : buffer.length < (size + 2 ^ 32 - 1) % 2 ^ 32
    · by_cases ht : temp = 13
      · refine ⟨[Event.getc temp], ?_, rfl, fun _ => rfl⟩
        simp only [term_readbuffer_loop, hi, if_true, ht]
        simp [Machine.emit]
      · obtain ⟨es, h1, h2, h3⟩ := ih (buffer ++ [temp])
          (({ M with pc := rest }).emit [Event.getc temp])
        refine ⟨[Event.getc temp] ++ es, ?_, ?_, ?_⟩
        · simp only [term_readbuffer_loop, hi, if_true, ht, if_false]
          rw [h1]
          simp [Machine.emit]
        · rw [ack_events_append, h2]; rfl
        · exact balanced_append _ _ (fun _ => rfl) h3
    · refine ⟨[], ?_, rfl, balanced_nil⟩
      simp only [term_readbuffer_loop, hi, if_false]
      simp

theorem jtag_readbuffer_loop_trace (A END : Nat) :
    ∀ (fuel i : Nat) (buffer : List Byte) (len : Nat) (finished : Bool) (M : Machine),
      ∃ es, (jtag_readbuffer_loop END fuel i buffer len finished M).2.trace = M.trace ++ es ∧
        (A < i ∨ END ≤ A → ack_events A es = []) ∧ balanced es := by
  intro fuel
  induction fuel with
  | zero =>
    intro i buffer len finished M
    exact ⟨[], by simp [jtag_readbuffer_loop], fun _ => rfl, balanced_nil⟩
  | succ fuel ih =>
    intro i buffer len finished M
    by_cases hi : i < END
    · have hack : ∀ v, (A < i ∨ END ≤ A) →
          ack_events A [Event.lock Mutex.JTAG_mutex, Event.writeMemory i v,
            Event.unlock Mutex.JTAG_mutex] = [] := by
        intro v hA
        have hne : ¬ i = A := by omega
        simp [ack_events, hne]
      by_cases hfin : (jtag_readbuffer_chunk 4 [] buffer len finished).2.2.2 = true
      · refine ⟨_, ?_, hack (chunk_word (jtag_readbuffer_chunk 4 [] buffer len finished).1),
          balanced_locked_write i _⟩
        simp only [jtag_readbuffer_loop, hi, if_true, hfin]
        simp [Machine.emit, Machine.writeMemory]
      · obtain ⟨es, h1, h2, h3⟩ := ih (i + 4)
          (jtag_readbuffer_chunk 4 [] buffer len finished).2.1
          (jtag_readbuffer_chunk 4 [] buffer len finished).2.2.1
          (jtag_readbuffer_chunk 4 [] buffer len finished).2.2.2
          (((M.emit [Event.lock Mutex.JTAG_mutex]).writeMemory i
            (chunk_word (jtag_readbuffer_chunk 4 [] buffer len finished).1)).emit
              [Event.unlock Mutex.JTAG_mutex])
        have hf2 : (jtag_readbuffer_chunk 4 [] buffer len finished).2.2.2 = false := by
          simpa using hfin
        rw [hf2] at h1
        refine ⟨[Event.lock Mutex.JTAG_mutex, Event.writeMemory i
          (chunk_word (jtag_readbuffer_chunk 4 [] buffer len finished).1),
          Event.unlock Mutex.JTAG_mutex] ++ es, ?_, ?_, ?_⟩
        · simp only [jtag_readbuffer_loop, hi, if_true, hf2, Bool.false_eq_true, if_false]
          rw [h1]
          simp [Machine.emit, Machine.writeMemory]
        · intro hA
          rw [ack_events_append, h2 (by omega), hack _ hA]; rfl
        · exact balanced_append _ _ (balanced_locked_write i _) h3
    · exact ⟨[], by simp [jtag_readbuffer_loop, hi], fun _ => rfl, balanced_nil⟩

theorem term_printf_trace (A : Nat) (cfg : Config) (M : Machine) :
    ∃ es, (term_printf cfg M).2.trace = M.trace ++ es ∧ ack_events A es = [] ∧
      balanced es := by
  obtain ⟨e1, h1, a1, b1⟩ := jtag_writebuffer_trace A cfg.WRITEBUF_BEGIN cfg.WRITEBUF_END
    (M.emit [Event.lock Mutex.term_write_mutex])
  obtain ⟨e2, h2, a2, b2⟩ := term_sendbuffer_loop_trace A
    (jtag_writebuffer cfg.WRITEBUF_BEGIN cfg.WRITEBUF_END
      (M.emit [Event.lock Mutex.term_write_mutex])).2.1 cfg.BUF_SIZE cfg.BUF_SIZE 0
    (jtag_writebuffer cfg.WRITEBUF_BEGIN cfg.WRITEBUF_END
      (M.emit [Event.lock Mutex.term_write_mutex])).2.2
  refine ⟨[Event.lock Mutex.term_write_mutex] ++ e1 ++ e2 ++
    [Event.unlock Mutex.term_write_mutex], ?_, ?_, ?_⟩
  · simp only [term_printf, term_sendbuffer, Machine.emit]
    simp only [Machine.emit] at h1 h2
    rw [h2, h1]
    simp
  · simp only [ack_events_append, a1, a2]
    rfl
  · exact balanced_append _ _ (balanced_append _ _ (balanced_append _ _ (fun _ => rfl) b1) b2)
      (fun _ => rfl)

theorem term_scanf_trace (A : Nat) (cfg : Config) (M : Machine) :
    ∃ es, (term_scanf cfg M).2.trace = M.trace ++ es ∧
      (A < cfg.READBUF_BEGIN ∨ cfg.READBUF_END ≤ A → ack_events A es = []) ∧ balanced es := by
  obtain ⟨e1, h1, a1, b1⟩ := term_readbuffer_loop_trace A cfg.BUF_SIZE
    (M.emit [Event.lock Mutex.term_read_mutex]).pc []
    (M.emit [Event.lock Mutex.term_read_mutex])
  cases hr : (term_readbuffer cfg.BUF_SIZE (M.emit [Event.lock Mutex.term_read_mutex])).1 with
  | none =>
    refine ⟨[Event.lock Mutex.term_read_mutex] ++ e1, ?_, ?_, ?_⟩
    · simp only [term_scanf, hr]
      simp only [term_readbuffer]
      rw [h1]
      simp [Machine.emit]
    · intro _
      rw [ack_events_append, a1]; rfl
    · exact balanced_append _ _ (fun _ => rfl) b1
  | some term_rxbuffer =>
    obtain ⟨e2, h2, a2, b2⟩ := jtag_readbuffer_loop_trace A cfg.READBUF_END
      (cfg.READBUF_END - cfg.READBUF_BEGIN) cfg.READBUF_BEGIN term_rxbuffer 0 false
      (term_readbuffer cfg.BUF_SIZE (M.emit [Event.lock Mutex.term_read_mutex])).2
    refine ⟨[Event.lock Mutex.term_read_mutex] ++ e1 ++ e2 ++
      [Event.unlock Mutex.term_read_mutex], ?_, ?_, ?_⟩
    · simp only [term_scanf, hr, jtag_readbuffer, emit_trace]
      rw [h2]
      simp only [term_readbuffer]
      rw [h1]
      simp [emit_trace]
    · intro hA
      simp only [ack_events_append, a1, a2 hA]
      rfl
    · exact balanced_append _ _ (balanced_append _ _ (balanced_append _ _ (fun _ => rfl) b1)
        b2) (fun _ => rfl)

theorem inet_printf_trace (A : Nat) (cfg : Config) (sendTo_result : Int) (M : Machine) :
    ∃ es, (inet_printf cfg sendTo_result M).2.trace = M.trace ++ es ∧ ack_events A es = [] ∧
      balanced es := by
  by_cases ho : M.ethernet_open = false
  · exact ⟨[], by simp [inet_printf, ho], rfl, balanced_nil⟩
  · obtain ⟨e1, h1, a1, b1⟩ := jtag_writebuffer_trace A cfg.WRITEBUF_BEGIN cfg.WRITEBUF_END M
    refine ⟨e1 ++ [Event.sendTo (jtag_writebuffer cfg.WRITEBUF_BEGIN cfg.WRITEBUF_END M).2.1
      cfg.BUF_SIZE], ?_, ?_, ?_⟩
    · simp only [inet_printf, if_neg ho, emit_trace]
      rw [h1]
      simp
    · rw [ack_events_append, a1]; rfl
    · exact balanced_append _ _ b1 (fun _ => rfl)

theorem inet_scanf_trace (A : Nat) (cfg : Config) (receiveFrom_result : Int)
    (datagram : List Byte) (M : Machine) :
    ∃ es, (inet_scanf cfg receiveFrom_result datagram M).2.trace = M.trace ++ es ∧
      (A < cfg.READBUF_BEGIN ∨ cfg.READBUF_END ≤ A → ack_events A es = []) ∧ balanced es := by
  by_cases ho : M.ethernet_open = false
  · exact ⟨[], by simp [inet_scanf, ho], fun _ => rfl, balanced_nil⟩
  · by_cases hr : receiveFrom_result ≤ 0
    · refine ⟨[Event.receiveFrom cfg.BUF_SIZE], ?_, fun _ => rfl, fun _ => rfl⟩
      simp only [inet_scanf, if_neg ho, if_pos hr, emit_trace]
    · obtain ⟨e2, h2, a2, b2⟩ := jtag_readbuffer_loop_trace A cfg.READBUF_END
        (cfg.READBUF_END - cfg.READBUF_BEGIN) cfg.READBUF_BEGIN
        (datagram.take receiveFrom_result.toNat) 0 false
        ((M.emit [Event.receiveFrom cfg.BUF_SIZE]).emit
          [Event.store_rx receiveFrom_result.toNat])
      refine ⟨[Event.receiveFrom cfg.BUF_SIZE, Event.store_rx receiveFrom_result.toNat] ++ e2,
        ?_, ?_, ?_⟩
      · simp only [inet_scanf, if_neg ho, if_neg hr, jtag_readbuffer]
        rw [h2]
        simp [emit_trace]
      · intro hA
        rw [ack_events_append, a2 hA]; rfl
      · exact balanced_append _ _ (fun _ => rfl) b2

theorem ack_tail_trace (M : Machine) (A v : Nat) :
    ((((M.emit [Event.lock Mutex.JTAG_mutex]).writeMemory A v).emit
      [Event.ack_intr 1, Event.ack_intr 0]).emit [Event.unlock Mutex.JTAG_mutex]).trace =
      M.trace ++ [Event.lock Mutex.JTAG_mutex, Event.writeMemory A v, Event.ack_intr 1,
        Event.ack_intr 0, Event.unlock Mutex.JTAG_mutex] := by
  simp [Machine.emit, Machine.writeMemory]

theorem ack_events_ack_handshake (A v : Nat) (pre : List Event) (h : ack_events A pre = []) :
    ack_events A (pre ++ ack_handshake A v) =
      [Event.writeMemory A v, Event.ack_intr 1, Event.ack_intr 0] := by
  rw [ack_events_append, h]
  simp [ack_handshake, ack_events]

/-! ## Claims on the tasks -/

/-- C5: one pass of the Dispatcher on the status word `v` read at `IO_TYPE` sets
exactly the wake signal of Terminal-Write for `v = 0` and `v = 15`, of
Terminal-Read for `v = 1`, of Network-Write for `v = 2`, of Network-Read for
`v = 3`, and prints nothing; for any other `v` it sets no wake signal and prints
exactly one Unsupported-request diagnostic. -/
theorem dispatch_loop_routes (cfg : Config) (M : Machine) :
    signals_set (new_events M (dispatch_loop cfg M)) =
        (if M.mem cfg.IO_TYPE = 0 ∨ M.mem cfg.IO_TYPE = 15 then
          [(ThreadId.term_write_thread, SIG_TERM_WRITE)]
        else if M.mem cfg.IO_TYPE = 1 then [(ThreadId.term_read_thread, SIG_TERM_READ)]
        else if M.mem cfg.IO_TYPE = 2 then [(ThreadId.inet_write_thread, SIG_INET_WRITE)]
        else if M.mem cfg.IO_TYPE = 3 then [(ThreadId.inet_read_thread, SIG_INET_READ)]
        else []) ∧
      printed (new_events M (dispatch_loop cfg M)) =
        (if M.mem cfg.IO_TYPE = 0 ∨ M.mem cfg.IO_TYPE = 15 ∨ M.mem cfg.IO_TYPE = 1 ∨
            M.mem cfg.IO_TYPE = 2 ∨ M.mem cfg.IO_TYPE = 3 then []
        else [Message.unsupported_request (M.mem cfg.IO_TYPE)]) := by
  by_cases h15 : M.mem cfg.IO_TYPE = 15
  · simp [dispatch_loop, new_events, Machine.readMemory, Machine.emit, PANIC_REQ, h15,
      signals_set, printed]
  by_cases h0 : M.mem cfg.IO_TYPE = 0
  · simp [dispatch_loop, new_events, Machine.readMemory, Machine.emit, PANIC_REQ,
      TERM_PRINT_REQ, h0, signals_set, printed]
  by_cases h1 : M.mem cfg.IO_TYPE = 1
  · simp [dispatch_loop, new_events, Machine.readMemory, Machine.emit, PANIC_REQ,
      TERM_PRINT_REQ, TERM_SCAN_REQ, h1, signals_set, printed]
  by_cases h2 : M.mem cfg.IO_TYPE = 2
  · simp [dispatch_loop, new_events, Machine.readMemory, Machine.emit, PANIC_REQ,
      TERM_PRINT_REQ, TERM_SCAN_REQ, INET_PRINT_REQ, h2, signals_set, printed]
  by_cases h3 : M.mem cfg.IO_TYPE = 3
  · simp [dispatch_loop, new_events, Machine.readMemory, Machine.emit, PANIC_REQ,
      TERM_PRINT_REQ, TERM_SCAN_REQ, INET_PRINT_REQ, INET_SCAN_REQ, h3, signals_set, printed]
  simp [dispatch_loop, new_events, Machine.readMemory, Machine.emit, PANIC_REQ,
    TERM_PRINT_REQ, TERM_SCAN_REQ, INET_PRINT_REQ, INET_SCAN_REQ, h15, h0, h1, h2, h3,
    signals_set, printed, mbed_printf]

/-- C6: with the Ack word outside the Inbound window, every cycle of an I/O worker
that comes back to its `signal_wait` ends, after the transfer, with one write
to the Ack word and one assert-then-deassert of the ack line under `JTAG_mutex`;
the value is Print-Ack for Terminal-Write and Network-Write and Scan-Ack for
Terminal-Read and Network-Read, and the transfer holds no other Ack word write
and no other drive of the ack line. A Terminal-Write cycle always completes. -/
theorem completed_cycle_acknowledges (cfg : Config) (M : Machine)
    (sendTo_result receiveFrom_result : Int) (datagram : List Byte)
    (hA : cfg.ACK_TYPE < cfg.READBUF_BEGIN ∨ cfg.READBUF_END ≤ cfg.ACK_TYPE) :
    ((term_write_loop cfg M).1 = Outcome.waiting ∧
        ∃ pre, new_events M (term_write_loop cfg M).2 =
            pre ++ ack_handshake cfg.ACK_TYPE PRINT_ACK ∧
          ack_events cfg.ACK_TYPE pre = []) ∧
      ((term_read_loop cfg M).1 = Outcome.waiting →
        ∃ pre, new_events M (term_read_loop cfg M).2 =
            pre ++ ack_handshake cfg.ACK_TYPE SCAN_ACK ∧
          ack_events cfg.ACK_TYPE pre = []) ∧
      ((inet_write_loop cfg sendTo_result M).1 = Outcome.waiting →
        ∃ pre, new_events M (inet_write_loop cfg sendTo_result M).2 =
            pre ++ ack_handshake cfg.ACK_TYPE PRINT_ACK ∧
          ack_events cfg.ACK_TYPE pre = []) ∧
      ((inet_read_loop cfg receiveFrom_result datagram M).1 = Outcome.waiting →
        ∃ pre, new_events M (inet_read_loop cfg receiveFrom_result datagram M).2 =
            pre ++ ack_handshake cfg.ACK_TYPE SCAN_ACK ∧
          ack_events cfg.ACK_TYPE pre = []) := by
  refine ⟨⟨rfl, ?_⟩, ?_, ?_, ?_⟩
  · obtain ⟨es, h1, a1, _⟩ := term_printf_trace cfg.ACK_TYPE cfg
      (M.emit [Event.signal_wait SIG_TERM_WRITE])
    refine ⟨[Event.signal_wait SIG_TERM_WRITE] ++ es, ?_, ?_⟩
    · apply new_events_append
      simp only [term_write_loop, ack_tail_trace]
      rw [h1]
      simp [emit_trace, ack_handshake]
    · rw [ack_events_append, a1]; rfl
  · intro hw
    obtain ⟨es, h1, a1, _⟩ := term_scanf_trace cfg.ACK_TYPE cfg
      (M.emit [Event.signal_wait SIG_TERM_READ])
    have a1 := a1 hA
    cases hr : (term_scanf cfg (M.emit [Event.signal_wait SIG_TERM_READ])).1 with
    | none => simp [term_read_loop, hr] at hw
    | some len =>
      refine ⟨[Event.signal_wait SIG_TERM_READ] ++ es, ?_, ?_⟩
      · apply new_events_append
        simp only [term_read_loop, hr, ack_tail_trace]
        rw [h1]
        simp [emit_trace, ack_handshake]
      · rw [ack_events_append, a1]; rfl
  · intro hw
    obtain ⟨es, h1, a1, _⟩ := inet_printf_trace cfg.ACK_TYPE cfg sendTo_result
      (M.emit [Event.signal_wait SIG_INET_WRITE])
    by_cases hr : (inet_printf cfg sendTo_result
        (M.emit [Event.signal_wait SIG_INET_WRITE])).1 ≤ 0
    · simp [inet_write_loop, hr, panic] at hw
    · refine ⟨[Event.signal_wait SIG_INET_WRITE] ++ es, ?_, ?_⟩
      · apply new_events_append
        simp only [inet_write_loop, if_neg hr, ack_tail_trace]
        rw [h1]
        simp [emit_trace, ack_handshake]
      · rw [ack_events_append, a1]; rfl
  · intro hw
    obtain ⟨es, h1, a1, _⟩ := inet_scanf_trace cfg.ACK_TYPE cfg receiveFrom_result datagram
      (M.emit [Event.signal_wait SIG_INET_READ])
    have a1 := a1 hA
    by_cases hr : (inet_scanf cfg receiveFrom_result datagram
        (M.emit [Event.signal_wait SIG_INET_READ])).1 ≤ 0
    · simp [inet_read_loop, hr, panic] at hw
    · refine ⟨[Event.signal_wait SIG_INET_READ] ++ es, ?_, ?_⟩
      · apply new_events_append
        simp only [inet_read_loop, if_neg hr, ack_tail_trace]
        rw [h1]
        simp [emit_trace, ack_handshake]
      · rw [ack_events_append, a1]; rfl

/-- C6 on a concrete machine: the console delivers "hi" and a carriage return,
the socket sends 64 bytes and receives the two byte datagram "AB"; the four
cycles complete and each shows exactly its Ack word write and one pulse. -/
theorem completed_cycle_acknowledges_witness :
    (cfg0.ACK_TYPE < cfg0.READBUF_BEGIN ∨ cfg0.READBUF_END ≤ cfg0.ACK_TYPE) ∧
      (term_read_loop cfg0 M_hi).1 = Outcome.waiting ∧
      (inet_write_loop cfg0 64 M_hi).1 = Outcome.waiting ∧
      (inet_read_loop cfg0 2 [65, 66] M_hi).1 = Outcome.waiting ∧
      ack_events 4 (new_events M_hi (term_write_loop cfg0 M_hi).2) =
        [Event.writeMemory 4 0, Event.ack_intr 1, Event.ack_intr 0] ∧
      ack_events 4 (new_events M_hi (term_read_loop cfg0 M_hi).2) =
        [Event.writeMemory 4 1, Event.ack_intr 1, Event.ack_intr 0] ∧
      ack_events 4 (new_events M_hi (inet_write_loop cfg0 64 M_hi).2) =
        [Event.writeMemory 4 0, Event.ack_intr 1, Event.ack_intr 0] ∧
      ack_events 4 (new_events M_hi (inet_read_loop cfg0 2 [65, 66] M_hi).2) =
        [Event.writeMemory 4 1, Event.ack_intr 1, Event.ack_intr 0] := by
  obtain ⟨⟨_, p1, e1, a1⟩, h2, h3, h4⟩ :=
    completed_cycle_acknowledges cfg0 M_hi 64 2 [65, 66] (by decide)
  obtain ⟨p2, e2, a2⟩ := h2 (by decide)
  obtain ⟨p3, e3, a3⟩ := h3 (by decide)
  obtain ⟨p4, e4, a4⟩ := h4 (by decide)
  refine ⟨by decide, by decide, by decide, by decide, ?_, ?_, ?_, ?_⟩
  · rw [e1]; exact ack_events_ack_handshake 4 0 p1 a1
  · rw [e2]; exact ack_events_ack_handshake 4 1 p2 a2
  · rw [e3]; exact ack_events_ack_handshake 4 0 p3 a3
  · rw [e4]; exact ack_events_ack_handshake 4 1 p4 a4

/-- C7 as stated fails: with `ethernet_open` false the Network-Write cycle is not
a silent drop, it calls `panic`. -/
theorem inet_write_loop_uninitialized_counterexample :
    M_closed.ethernet_open = false ∧
      ¬ (sent (new_events M_closed (inet_write_loop cfg0 64 M_closed).2) = [] ∧
        ack_events cfg0.ACK_TYPE (new_events M_closed (inet_write_loop cfg0 64 M_closed).2) = [] ∧
        panics (new_events M_closed (inet_write_loop cfg0 64 M_closed).2) = [] ∧
        (inet_write_loop cfg0 64 M_closed).1 = Outcome.waiting) := by
  decide

/-- C7 amended: with `ethernet_open` false a Network-Write cycle sends no datagram,
touches neither target memory nor the Ack word nor the ack line, and then takes
the fatal halt path: `inet_printf` returns -1 and the worker calls `panic`. -/
theorem inet_write_loop_uninitialized (cfg : Config) (sendTo_result : Int) (M : Machine)
    (h : M.ethernet_open = false) :
    new_events M (inet_write_loop cfg sendTo_result M).2 =
        [Event.signal_wait SIG_INET_WRITE, Event.panic Message.inet_printf_failed] ∧
      sent (new_events M (inet_write_loop cfg sendTo_result M).2) = [] ∧
      ack_events cfg.ACK_TYPE (new_events M (inet_write_loop cfg sendTo_result M).2) = [] ∧
      panics (new_events M (inet_write_loop cfg sendTo_result M).2) =
        [Message.inet_printf_failed] ∧
      (inet_write_loop cfg sendTo_result M).2.mem = M.mem ∧
      (inet_write_loop cfg sendTo_result M).1 = Outcome.halted := by
  have ho : (M.emit [Event.signal_wait SIG_INET_WRITE]).ethernet_open = false := h
  have hp : inet_printf cfg sendTo_result (M.emit [Event.signal_wait SIG_INET_WRITE]) =
      (-1, M.emit [Event.signal_wait SIG_INET_WRITE]) := by
    simp only [inet_printf, if_pos ho]
  have hl : inet_write_loop cfg sendTo_result M =
      panic Message.inet_printf_failed (M.emit [Event.signal_wait SIG_INET_WRITE]) := by
    simp only [inet_write_loop, hp]
    rfl
  have hn : new_events M (inet_write_loop cfg sendTo_result M).2 =
      [Event.signal_wait SIG_INET_WRITE, Event.panic Message.inet_printf_failed] := by
    apply new_events_append
    rw [hl]
    simp [panic, emit_trace]
  refine ⟨hn, ?_, ?_, ?_, ?_, ?_⟩
  · rw [hn]; rfl
  · rw [hn]; rfl
  · rw [hn]; rfl
  · rw [hl]; rfl
  · rw [hl]; rfl

/-- C7 amended, on a machine whose `ethernet_open` is false. -/
theorem inet_write_loop_uninitialized_witness :
    M_closed.ethernet_open = false ∧
      new_events M_closed (inet_write_loop cfg0 64 M_closed).2 =
        [Event.signal_wait SIG_INET_WRITE, Event.panic Message.inet_printf_failed] ∧
      (inet_write_loop cfg0 64 M_closed).1 = Outcome.halted := by
  obtain ⟨h1, _, _, _, _, h6⟩ := inet_write_loop_uninitialized cfg0 64 M_closed (by decide)
  exact ⟨by decide, h1, h6⟩

/-- C8 as stated fails: with the transport open and a receive result of 0 the
Network-Read cycle is not a no-op, it calls `panic`. -/
theorem inet_read_loop_nothing_received_counterexample :
    J0.ethernet_open = true ∧ (0 : Int) ≤ 0 ∧
      ¬ (writes (new_events J0 (inet_read_loop cfg0 0 [] J0).2) = [] ∧
        rx_stores (new_events J0 (inet_read_loop cfg0 0 [] J0).2) = [] ∧
        ack_events cfg0.ACK_TYPE (new_events J0 (inet_read_loop cfg0 0 [] J0).2) = [] ∧
        panics (new_events J0 (inet_read_loop cfg0 0 [] J0).2) = [] ∧
        (inet_read_loop cfg0 0 [] J0).1 = Outcome.waiting) := by
  decide

/-- C8 amended: with the transport open and a nonpositive receive result the
Network-Read cycle writes nothing to the Inbound window, stores no terminator in
the receive buffer, writes no Ack word and drives no ack line, and then takes
the fatal halt path: the worker calls `panic`. -/
theorem inet_read_loop_nothing_received (cfg : Config) (receiveFrom_result : Int)
    (datagram : List Byte) (M : Machine)
    (h : M.ethernet_open = true) (hr : receiveFrom_result ≤ 0) :
    new_events M (inet_read_loop cfg receiveFrom_result datagram M).2 =
        [Event.signal_wait SIG_INET_READ, Event.receiveFrom cfg.BUF_SIZE,
          Event.panic Message.inet_scanf_failed] ∧
      writes (new_events M (inet_read_loop cfg receiveFrom_result datagram M).2) = [] ∧
      rx_stores (new_events M (inet_read_loop cfg receiveFrom_result datagram M).2) = [] ∧
      ack_events cfg.ACK_TYPE
        (new_events M (inet_read_loop cfg receiveFrom_result datagram M).2) = [] ∧
      panics (new_events M (inet_read_loop cfg receiveFrom_result datagram M).2) =
        [Message.inet_scanf_failed] ∧
      (inet_read_loop cfg receiveFrom_result datagram M).2.mem = M.mem ∧
      (inet_read_loop cfg receiveFrom_result datagram M).1 = Outcome.halted := by
  have ho : ¬ (M.emit [Event.signal_wait SIG_INET_READ]).ethernet_open = false := by
    have : (M.emit [Event.signal_wait SIG_INET_READ]).ethernet_open = true := h
    simp [this]
  have hp : inet_scanf cfg receiveFrom_result datagram
      (M.emit [Event.signal_wait SIG_INET_READ]) =
      (receiveFrom_result, (M.emit [Event.signal_wait SIG_INET_READ]).emit
        [Event.receiveFrom cfg.BUF_SIZE]) := by
    simp only [inet_scanf, if_neg ho, if_pos hr]
  have hl : inet_read_loop cfg receiveFrom_result datagram M =
      panic Message.inet_scanf_failed ((M.emit [Event.signal_wait SIG_INET_READ]).emit
        [Event.receiveFrom cfg.BUF_SIZE]) := by
    simp only [inet_read_loop, hp, if_pos hr]
  have hn : new_events M (inet_read_loop cfg receiveFrom_result datagram M).2 =
      [Event.signal_wait SIG_INET_READ, Event.receiveFrom cfg.BUF_SIZE,
        Event.panic Message.inet_scanf_failed] := by
    apply new_events_append
    rw [hl]
    simp [panic, emit_trace]
  refine ⟨hn, ?_, ?_, ?_, ?_, ?_, ?_⟩
  · rw [hn]; rfl
  · rw [hn]; rfl
  · rw [hn]; rfl
  · rw [hn]; rfl
  · rw [hl]; rfl
  · rw [hl]; rfl

/-- C8 amended, on an open transport whose receive returns 0. -/
theorem inet_read_loop_nothing_received_witness :
    J0.ethernet_open = true ∧ (0 : Int) ≤ 0 ∧
      new_events J0 (inet_read_loop cfg0 0 [] J0).2 =
        [Event.signal_wait SIG_INET_READ, Event.receiveFrom 64,
          Event.panic Message.inet_scanf_failed] ∧
      (inet_read_loop cfg0 0 [] J0).1 = Outcome.halted := by
  obtain ⟨h1, _, _, _, _, _, h7⟩ :=
    inet_read_loop_nothing_received cfg0 0 [] J0 (by decide) (by decide)
  exact ⟨by decide, by decide, h1, h7⟩

/-- C9 at the failing input: with `BUF_SIZE = 8` and a receive result of 8 (the
capacity handed to `receiveFrom`), `inet_scanf` stores the terminator at index 8,
one past the last element of `inet_rxbuffer`. -/
theorem inet_scanf_terminator_past_end :
    (1 : Int) ≤ 8 ∧ (8 : Int) ≤ cfg8.BUF_SIZE ∧
      rx_stores (new_events J0 (inet_scanf cfg8 8 alphabet9 J0).2) = [cfg8.BUF_SIZE] ∧
      ¬ (cfg8.BUF_SIZE < cfg8.BUF_SIZE) := by
  decide

/-! ## The locking discipline of the tasks -/

theorem jtag_locked_of_balanced (es : List Event) (h : balanced es) :
    jtag_locked false es = true := by
  have := h []
  simpa [jtag_locked] using this

/-- The Dispatcher and the four I/O workers keep every target-memory access of a
cycle inside `JTAG_mutex`, whatever the memory map, the machine and the
transports do. -/
theorem io_tasks_hold_JTAG_mutex (cfg : Config) (M : Machine)
    (sendTo_result receiveFrom_result : Int) (datagram : List Byte) :
    jtag_locked false (new_events M (dispatch_loop cfg M)) = true ∧
      jtag_locked false (new_events M (term_write_loop cfg M).2) = true ∧
      jtag_locked false (new_events M (term_read_loop cfg M).2) = true ∧
      jtag_locked false (new_events M (inet_write_loop cfg sendTo_result M).2) = true ∧
      jtag_locked false
        (new_events M (inet_read_loop cfg receiveFrom_result datagram M).2) = true := by
  refine ⟨?_, ?_, ?_, ?_, ?_⟩
  · simp only [dispatch_loop]
    split_ifs <;>
      simp [new_events, Machine.readMemory, Machine.emit, mbed_printf, jtag_locked]
  · obtain ⟨es, h1, _, b1⟩ := term_printf_trace cfg.ACK_TYPE cfg
      (M.emit [Event.signal_wait SIG_TERM_WRITE])
    have hn : new_events M (term_write_loop cfg M).2 =
        [Event.signal_wait SIG_TERM_WRITE] ++ es ++ ack_handshake cfg.ACK_TYPE PRINT_ACK := by
      apply new_events_append
      simp only [term_write_loop, ack_tail_trace]
      rw [h1]
      simp [emit_trace, ack_handshake]
    rw [hn]
    exact jtag_locked_of_balanced _ (balanced_append _ _
      (balanced_append _ _ (fun _ => rfl) b1) (balanced_ack_handshake _ _))
  · obtain ⟨es, h1, _, b1⟩ := term_scanf_trace cfg.ACK_TYPE cfg
      (M.emit [Event.signal_wait SIG_TERM_READ])
    cases hr : (term_scanf cfg (M.emit [Event.signal_wait SIG_TERM_READ])).1 with
    | none =>
      have hn : new_events M (term_read_loop cfg M).2 =
          [Event.signal_wait SIG_TERM_READ] ++ es := by
        apply new_events_append
        simp only [term_read_loop, hr]
        rw [h1]
        simp [emit_trace]
      rw [hn]
      exact jtag_locked_of_balanced _ (balanced_append _ _ (fun _ => rfl) b1)
    | some len =>
      have hn : new_events M (term_read_loop cfg M).2 =
          [Event.signal_wait SIG_TERM_READ] ++ es ++ ack_handshake cfg.ACK_TYPE SCAN_ACK := by
        apply new_events_append
        simp only [term_read_loop, hr, ack_tail_trace]
        rw [h1]
        simp [emit_trace, ack_handshake]
      rw [hn]
      exact jtag_locked_of_balanced _ (balanced_append _ _
        (balanced_append _ _ (fun _ => rfl) b1) (balanced_ack_handshake _ _))
  · obtain ⟨es, h1, _, b1⟩ := inet_printf_trace cfg.ACK_TYPE cfg sendTo_result
      (M.emit [Event.signal_wait SIG_INET_WRITE])
    by_cases hr : (inet_printf cfg sendTo_result
        (M.emit [Event.signal_wait SIG_INET_WRITE])).1 ≤ 0
    · have hn : new_events M (inet_write_loop cfg sendTo_result M).2 =
          [Event.signal_wait SIG_INET_WRITE] ++ es ++
            [Event.panic Message.inet_printf_failed] := by
        apply new_events_append
        simp only [inet_write_loop, if_pos hr, panic, emit_trace]
        rw [h1]
        simp [emit_trace]
      rw [hn]
      exact jtag_locked_of_balanced _ (balanced_append _ _
        (balanced_append _ _ (fun _ => rfl) b1) (fun _ => rfl))
    · have hn : new_events M (inet_write_loop cfg sendTo_result M).2 =
          [Event.signal_wait SIG_INET_WRITE] ++ es ++
            ack_handshake cfg.ACK_TYPE PRINT_ACK := by
        apply new_events_append
        simp only [inet_write_loop, if_neg hr, ack_tail_trace]
        rw [h1]
        simp [emit_trace, ack_handshake]
      rw [hn]
      exact jtag_locked_of_balanced _ (balanced_append _ _
        (balanced_append _ _ (fun _ => rfl) b1) (balanced_ack_handshake _ _))
  · obtain ⟨es, h1, _, b1⟩ := inet_scanf_trace cfg.ACK_TYPE cfg receiveFrom_result datagram
      (M.emit [Event.signal_wait SIG_INET_READ])
    by_cases hr : (inet_scanf cfg receiveFrom_result datagram
        (M.emit [Event.signal_wait SIG_INET_READ])).1 ≤ 0
    · have hn : new_events M (inet_read_loop cfg receiveFrom_result datagram M).2 =
          [Event.signal_wait SIG_INET_READ] ++ es ++
            [Event.panic Message.inet_scanf_failed] := by
        apply new_events_append
        simp only [inet_read_loop, if_pos hr, panic, emit_trace]
        rw [h1]
        simp [emit_trace]
      rw [hn]
      exact jtag_locked_of_balanced _ (balanced_append _ _
        (balanced_append _ _ (fun _ => rfl) b1) (fun _ => rfl))
    · have hn : new_events M (inet_read_loop cfg receiveFrom_result datagram M).2 =
          [Event.signal_wait SIG_INET_READ] ++ es ++
            ack_handshake cfg.ACK_TYPE SCAN_ACK := by
        apply new_events_append
        simp only [inet_read_loop, if_neg hr, ack_tail_trace]
        rw [h1]
        simp [emit_trace, ack_handshake]
      rw [hn]
      exact jtag_locked_of_balanced _ (balanced_append _ _
        (balanced_append _ _ (fun _ => rfl) b1) (balanced_ack_handshake _ _))

theorem debug_print_loop_trace (END : Nat) :
    ∀ (fuel i : Nat) (M : Machine),
      ∃ es, (debug_print_loop END fuel i M).trace = M.trace ++ es := by
  intro fuel
  induction fuel with
  | zero => intro i M; exact ⟨[], by simp [debug_print_loop]⟩
  | succ fuel ih =>
    intro i M
    by_cases hi : i < END
    · obtain ⟨es, h⟩ := ih (i + 4) (mbed_printf (Message.hex_word (M.readMemory i).1)
        (M.readMemory i).2)
      refine ⟨[Event.readMemory i, Event.lock Mutex.term_write_mutex,
        Event.printf (Message.hex_word (M.mem i)), Event.unlock Mutex.term_write_mutex] ++ es,
        ?_⟩
      simp only [debug_print_loop, if_pos hi]
      rw [h]
      simp [mbed_printf, Machine.readMemory, emit_trace]
    · exact ⟨[], by simp [debug_print_loop, hi]⟩

theorem debug_print_trace (cfg : Config) (M : Machine)
    (h : cfg.WRITEBUF_BEGIN < cfg.WRITEBUF_END) :
    ∃ es, (debug_print cfg M).trace =
      M.trace ++ Event.readMemory cfg.WRITEBUF_BEGIN :: es := by
  obtain ⟨fuel, hf⟩ : ∃ fuel, cfg.WRITEBUF_END - cfg.WRITEBUF_BEGIN = fuel + 1 :=
    ⟨cfg.WRITEBUF_END - cfg.WRITEBUF_BEGIN - 1, by omega⟩
  obtain ⟨e1, h1⟩ := debug_print_loop_trace cfg.WRITEBUF_END fuel (cfg.WRITEBUF_BEGIN + 4)
    (mbed_printf (Message.hex_word (M.readMemory cfg.WRITEBUF_BEGIN).1)
      (M.readMemory cfg.WRITEBUF_BEGIN).2)
  obtain ⟨e2, h2⟩ := debug_print_loop_trace cfg.READBUF_END
    (cfg.READBUF_END - cfg.READBUF_BEGIN) cfg.READBUF_BEGIN
    (mbed_printf Message.blank_line
      (debug_print_loop cfg.WRITEBUF_END (cfg.WRITEBUF_END - cfg.WRITEBUF_BEGIN)
        cfg.WRITEBUF_BEGIN M))
  refine ⟨[Event.lock Mutex.term_write_mutex,
    Event.printf (Message.hex_word (M.mem cfg.WRITEBUF_BEGIN)),
    Event.unlock Mutex.term_write_mutex] ++ e1 ++ [Event.lock Mutex.term_write_mutex,
    Event.printf Message.blank_line, Event.unlock Mutex.term_write_mutex] ++ e2, ?_⟩
  simp only [debug_print]
  rw [h2]
  simp only [mbed_printf, emit_trace]
  rw [hf]
  simp only [debug_print_loop, if_pos h]
  rw [h1]
  simp [mbed_printf, Machine.readMemory, emit_trace]

/-- Whenever the Outbound window is not empty, a cycle of the Debug-Dump worker
reads target memory without holding `JTAG_mutex`. -/
theorem debug_loop_reads_outside_JTAG_mutex (cfg : Config) (M : Machine)
    (h : cfg.WRITEBUF_BEGIN < cfg.WRITEBUF_END) :
    jtag_locked false (new_events M (debug_loop cfg M)) = false := by
  by_cases hinit : M.init = true
  · have hi : (M.emit [Event.signal_wait SIG_DEBUG]).init = true := hinit
    obtain ⟨es, h1⟩ := debug_print_trace cfg
      (({ (((M.emit [Event.signal_wait SIG_DEBUG]).emit [Event.lock Mutex.JTAG_mutex]).emit
        [Event.jtag_reset, Event.jtag_leaveState, Event.jtag_PowerupDAP]) with
          init := false }).emit [Event.unlock Mutex.JTAG_mutex]) h
    have hn : new_events M (debug_loop cfg M) =
        [Event.signal_wait SIG_DEBUG, Event.lock Mutex.JTAG_mutex, Event.jtag_reset,
          Event.jtag_leaveState, Event.jtag_PowerupDAP, Event.unlock Mutex.JTAG_mutex] ++
          Event.readMemory cfg.WRITEBUF_BEGIN :: es := by
      apply new_events_append
      simp only [debug_loop, hi, if_true]
      rw [h1]
      simp [Machine.emit]
    rw [hn]
    simp [jtag_locked]
  · have hi : ¬ (M.emit [Event.signal_wait SIG_DEBUG]).init = true := hinit
    obtain ⟨es, h1⟩ := debug_print_trace cfg (M.emit [Event.signal_wait SIG_DEBUG]) h
    have hn : new_events M (debug_loop cfg M) =
        [Event.signal_wait SIG_DEBUG] ++ Event.readMemory cfg.WRITEBUF_BEGIN :: es := by
      apply new_events_append
      simp only [debug_loop, if_neg hi]
      rw [h1]
      simp [Machine.emit]
    rw [hn]
    simp [jtag_locked]

/-- C10 at the failing input: on the first `debug` wake with both windows four
words long, the trace of the Debug-Dump worker has a `readMemory` outside
`JTAG_mutex`, while the traces of the Dispatcher and of the four I/O workers
keep every access inside it. -/
theorem debug_print_reads_outside_JTAG_mutex :
    jtag_locked false (new_events M_hi (debug_loop cfg0 M_hi)) = false ∧
      (new_events M_hi (debug_loop cfg0 M_hi)).take 7 =
        [Event.signal_wait SIG_DEBUG, Event.lock Mutex.JTAG_mutex, Event.jtag_reset,
          Event.jtag_leaveState, Event.jtag_PowerupDAP, Event.unlock Mutex.JTAG_mutex,
          Event.readMemory 16] ∧
      jtag_locked false (new_events M_hi (dispatch_loop cfg0 M_hi)) = true ∧
      jtag_locked false (new_events M_hi (term_write_loop cfg0 M_hi).2) = true ∧
      jtag_locked false (new_events M_hi (term_read_loop cfg0 M_hi).2) = true ∧
      jtag_locked false (new_events M_hi (inet_write_loop cfg0 64 M_hi).2) = true ∧
      jtag_locked false (new_events M_hi (inet_read_loop cfg0 2 [65, 66] M_hi).2) = true := by
  decide

end Expedition
